import Mathlib

/-!
# Verification of the f3 FTP-to-S3 bridge against its specification

Shallow embedding of the f3 driver (`server/s3_driver.go`), the capability
parser (`parseFeatureSet` in the driver factory) and the legacy signature-v2
signer (`s3ext` package), with theorems settling the frozen claims C1-C10.

Go standard-library helpers (`strings`, `path/filepath`, `net/url`,
`crypto/sha1`, `crypto/hmac`, `encoding/base64`) are modelled here as
executable Lean functions over `List Char` / `Nat`, faithful to their
documented behaviour on the inputs the driver uses.
-/

set_option maxRecDepth 1000000

namespace F3

/-! ## Models of Go string primitives -/

/-- Model of Go `strings.Split` for a single-character separator:
splits around every occurrence of `c`; `Split("", c) = [""]`. -/
def splitChar (c : Char) : List Char → List (List Char)
  | [] => [[]]
  | x :: xs =>
    let r := splitChar c xs
    if x = c then [] :: r
    else
      match r with
      | h :: t => (x :: h) :: t
      | [] => [[x]]

/-- `strings.Split` on a `String`, single-character separator. -/
def goSplit (s : String) (c : Char) : List String :=
  (splitChar c s.data).map String.mk

/-- Model of Go `strings.HasPrefix`. -/
def goHasPre (s pre : String) : Bool :=
  pre.data.isPrefixOf s.data

/-- Model of Go `strings.TrimPrefix`: drops `pre` when it is a prefix,
otherwise returns `s` unchanged. -/
def goTrimPre (s pre : String) : String :=
  if goHasPre s pre then String.mk (s.data.drop pre.data.length) else s

/-- Model of Go `strings.Contains` (substring test). -/
def goContains (s sub : String) : Bool :=
  s.data.tails.any (fun t => sub.data.isPrefixOf t)

/-- ASCII lower-casing of one character (model of Go `unicode.ToLower`
restricted to ASCII, which is all the driver's tokens use). -/
def lowerChar (c : Char) : Char :=
  if 65 ≤ c.toNat ∧ c.toNat ≤ 90 then Char.ofNat (c.toNat + 32) else c

/-- ASCII upper-casing of one character. -/
def upperChar (c : Char) : Char :=
  if 97 ≤ c.toNat ∧ c.toNat ≤ 122 then Char.ofNat (c.toNat - 32) else c

/-- Model of Go `strings.ToLower` (ASCII). -/
def goToLower (s : String) : String :=
  String.mk (s.data.map lowerChar)

/-- Whitespace test (Go `unicode.IsSpace` restricted to ASCII). -/
def isSpaceChar (c : Char) : Bool :=
  c = ' ' ∨ c = '\t' ∨ c = '\n' ∨ c = '\r'

/-- Model of Go `strings.TrimSpace` (ASCII whitespace). -/
def goTrimSpace (s : String) : String :=
  String.mk (((s.data.dropWhile isSpaceChar).reverse.dropWhile isSpaceChar).reverse)

/-- Join a list of strings with a separator (Go `strings.Join`). -/
def joinSep (sep : String) : List String → String
  | [] => ""
  | [x] => x
  | x :: y :: xs => x ++ sep ++ joinSep sep (y :: xs)

/-- Model of Go `strings.Replace(s, "+", "%20", -1)`:
replace every `'+'` character by `"%20"`. -/
def plusTo20 (s : String) : String :=
  String.mk (s.data.flatMap (fun c => if c = '+' then ['%', '2', '0'] else [c]))

/-! ## Model of Go `path/filepath` (`Clean`, `Join`) and `net/url` stringification -/

/-- Segment processing loop of Go `path.Clean`: skip empty and `"."` segments,
let `".."` pop the last kept segment (or survive / vanish at the top,
depending on rootedness). `acc` holds kept segments in reverse. -/
def cleanLoop (rooted : Bool) : List String → List String → List String
  | [], acc => acc.reverse
  | s :: rest, acc =>
    if s = "" ∨ s = "." then cleanLoop rooted rest acc
    else if s = ".." then
      match acc with
      | t :: acc' =>
        if t = ".." then cleanLoop rooted rest (s :: t :: acc')
        else cleanLoop rooted rest acc'
      | [] => if rooted then cleanLoop rooted rest [] else cleanLoop rooted rest [s]
    else cleanLoop rooted rest (s :: acc)

/-- Model of Go `path.Clean` (= `filepath.Clean` on unix). -/
def goPathClean (p : String) : String :=
  if p = "" then "."
  else
    let rooted := goHasPre p "/"
    let joined := joinSep "/" (cleanLoop rooted (goSplit p '/') [])
    if rooted then "/" ++ joined
    else if joined = "" then "." else joined

/-- Model of Go `filepath.Join` for two elements: join the non-empty ones
with `"/"` and `Clean` the result; all-empty input gives `""`. -/
def filepathJoin (a b : String) : String :=
  match ([a, b].filter (fun s => s ≠ "")) with
  | [] => ""
  | parts => goPathClean (joinSep "/" parts)

/-- The parts of the parsed bucket URL the driver uses. -/
structure BucketURL where
  scheme : String
  host : String
deriving DecidableEq, Repr

/-- Model of Go `url.URL.String` for a `scheme://host` URL whose `Path` was
set to `path`: a `/` is inserted when the path is non-empty and does not
already start with one. -/
def urlString (u : BucketURL) (path : String) : String :=
  u.scheme ++ "://" ++ u.host ++
    (if path ≠ "" ∧ ¬ goHasPre path "/" then "/" ++ path else path)

/-! ## Data model of the driver (`server/s3_driver.go`) -/

/-- An AWS error as the driver observes it (`awserr.Error`): a code and a
message. `intoAwsError` is the identity in this model (every store error is
an `awserr.Error`). -/
structure AwsErr where
  code : String
  message : String
deriving DecidableEq, Repr

/-- Response of S3 `HeadObject` (`ContentLength` and `LastModified` are
nilable pointers in Go, hence `Option`). -/
structure HeadResp where
  contentLength : Option Int
  lastModified : Option Nat
deriving DecidableEq, Repr

/-- One object of an S3 `ListObjects` response (`Key` and `Size` and
`LastModified` are dereferenced unconditionally by the driver; `Owner` is
nil-checked). Timestamps are abstracted to `Nat`. -/
structure S3Object where
  key : String
  size : Int
  owner : Option String
  lastModified : Nat
deriving DecidableEq, Repr

/-- The S3 call surface the driver consumes, as one deterministic response
map per operation (the store is external; each call is modelled by its
response). -/
structure Store where
  headBucket : Except AwsErr Unit
  headObject : String → Except AwsErr HeadResp
  listObjects : Except AwsErr (List S3Object)
  upload : String → Except AwsErr Unit

/-- `S3ObjectInfo`: one listing row (name, size, owner, modification time,
pseudo-directory flag). The Go field `isPrefix` is named `isPfx` here. -/
structure S3ObjectInfo where
  name : String
  size : Int
  owner : String
  modTime : Nat
  isPfx : Bool
deriving DecidableEq, Repr

/-- Errors produced by the driver, one constructor per `error` construction
site in `s3_driver.go`; `aws e` is a store error returned unchanged. -/
inductive DriverErr where
  /-- a store error returned as-is -/
  | aws (e : AwsErr)
  /-- `errors.Wrapf(err, "Bucket %q is not accessible", d.bucketName)` -/
  | bucketInaccessible (bucket : String) (e : AwsErr)
  /-- `errors.Wrapf(err, "Bucket check failed")` -/
  | bucketCheckFailed (inner : DriverErr)
  /-- `fmt.Errorf("%q is not enabled", op)` -/
  | notEnabled (op : String)
  /-- `fmt.Errorf("PUT with empty data")` -/
  | emptyData
  /-- `fmt.Errorf("can not append to object %q because the backend does not support appending", fqdn)` -/
  | appendNotSupported (fq : String)
  /-- `fmt.Errorf("object %q already exists and overwriting is forbidden", fqdn)` -/
  | alreadyExists (fq : String)
  /-- `fmt.Errorf("Failed to put object %q because reading from source failed", fqdn)` -/
  | putSourceFailed (fq : String)
  /-- `errors.Wrapf(err, "Failed to check size of object %q", ...)` in `objectSize` -/
  | sizeCheckFailed (fq : String) (e : AwsErr)
deriving DecidableEq, Repr

/-- Feature-flag bits (`featureChangeDir = 1 << iota`, ...). -/
def featureChangeDir : Nat := 1
def featureList : Nat := 2
def featureRemoveDir : Nat := 4
def featureRemove : Nat := 8
def featureMove : Nat := 16
def featureMakeDir : Nat := 32
def featureGet : Nat := 64
def featurePut : Nat := 128

/-- The `S3Driver` struct: feature bitset, overwrite policy, bucket identity
and the per-connection working path `cwd`. The store clients (`s3`,
`uploader`) and metrics sender are passed explicitly to each operation. -/
structure S3Driver where
  featureFlags : Nat
  noOverwrite : Bool
  bucketName : String
  bucketURL : BucketURL
  cwd : String
deriving DecidableEq, Repr

/-! ## Driver operations -/

/-- `fqdn`: the fully qualified name of the object with key `key` — the
bucket URL with its path replaced by `filepath.Join(d.cwd, key)`. -/
def fqdn (d : S3Driver) (key : String) : String :=
  urlString d.bucketURL (filepathJoin d.cwd key)

/-- `bucketCheck`: `HeadBucket` probe; a failure is wrapped as
"Bucket %q is not accessible". -/
def bucketCheck (d : S3Driver) (st : Store) : Option DriverErr :=
  match st.headBucket with
  | .error e => some (.bucketInaccessible d.bucketName e)
  | .ok _ => none

/-- `Stat`: object metadata for `key`. `now` stands for `time.Now()`.
A `"NotFound"` head-object error yields a synthetic pseudo-directory entry
and no error; any other head-object error is returned unchanged. -/
def Stat (d : S3Driver) (st : Store) (key : String) (now : Nat) :
    Except DriverErr S3ObjectInfo :=
  match bucketCheck d st with
  | some e => .error (.bucketCheckFailed e)
  | none =>
    match st.headObject key with
    | .error e =>
      if e.code = "NotFound" then
        .ok { name := key, size := 0, owner := "", modTime := now, isPfx := true }
      else
        .error (.aws e)
    | .ok resp =>
      let size := resp.contentLength.getD 0
      let modTime := resp.lastModified.getD now
      .ok { name := key, size := size, owner := "", modTime := modTime, isPfx := true }

/-- The body of `ChangeDir` acting on the receiver copy `d`:
`d.cwd = path; return nil`. -/
def ChangeDirBody (d : S3Driver) (path : String) : S3Driver × Option DriverErr :=
  ({ d with cwd := path }, none)

/-- A `ChangeDir` call as the FTP engine performs it. `ChangeDir` is declared
on a VALUE receiver (`func (d S3Driver) ChangeDir(...)`), so the Go method
call passes the connection's driver by value: the body mutates a copy that is
discarded, and the connection keeps its previous driver state. -/
def connChangeDir (conn : S3Driver) (path : String) : S3Driver × Option DriverErr :=
  (conn, (ChangeDirBody conn path).2)

/-- The per-object processing loop of `ListDir` (lines 148-194): filter by
`prefixKey`, strip it, classify into pseudo-directory (further `/` in the
slash-trimmed relative name) or plain object, deduplicate pseudo-directory
names through the `folders` set, and emit. Returns the emitted entries in
order. -/
def listLoop (prefixKey : String) : List S3Object → List String → List S3ObjectInfo
  | [], _ => []
  | obj :: rest, folders =>
    let name := obj.key
    if prefixKey ≠ "" ∧ ¬ goHasPre name prefixKey then
      listLoop prefixKey rest folders
    else
      let name := if prefixKey ≠ "" then goTrimPre name prefixKey else name
      let owner := obj.owner.getD ""
      let isPfx := goContains (goTrimPre name "/") "/"
      let name := if isPfx then (goSplit name '/').headD "" else name
      let finalName := goTrimPre name "/"
      if isPfx ∧ finalName ∈ folders then
        listLoop prefixKey rest folders
      else
        let folders' := if isPfx then finalName :: folders else folders
        { name := finalName, size := obj.size, owner := owner,
          modTime := obj.lastModified, isPfx := isPfx } :: listLoop prefixKey rest folders'

/-- `ListDir`: requires the list capability; one unpaginated `ListObjects`
call; then the local filtering loop. The callback's own errors are only
logged in Go, so the result is the list of emitted entries. -/
def ListDir (d : S3Driver) (st : Store) (key : String) :
    Except DriverErr (List S3ObjectInfo) :=
  if d.featureFlags &&& featureList = 0 then .error (.notEnabled "LS")
  else
    match bucketCheck d st with
    | some e => .error (.bucketCheckFailed e)
    | none =>
      match st.listObjects with
      | .error e => .error (.aws e)
      | .ok contents => .ok (listLoop (goTrimPre key "/") contents [])

/-- `DeleteDir`: always `notEnabled("RMDIR")`. -/
def DeleteDir (_d : S3Driver) (_key : String) : Except DriverErr Unit :=
  .error (.notEnabled "RMDIR")

/-- `Rename`: always `notEnabled("MV")`. -/
def Rename (_d : S3Driver) (_oldKey _newKey : String) : Except DriverErr Unit :=
  .error (.notEnabled "MV")

/-- `MakeDir`: always `notEnabled("MKDIR")`. -/
def MakeDir (_d : S3Driver) (_key : String) : Except DriverErr Unit :=
  .error (.notEnabled "MKDIR")

/-- `objectExists`: `HeadObject` probe; both the `"NotFound"` branch and the
catch-all error branch return `false` (the two `if` arms of the Go code). -/
def objectExists (_d : S3Driver) (st : Store) (key : String) : Bool :=
  match st.headObject key with
  | .error e => if e.code = "NotFound" then false else false
  | .ok _ => true

/-- `objectSize`: size via `HeadObject`; `aws.Int64Value(nil) = 0`; a store
error is wrapped (the Go function also returns `-1` alongside the error). -/
def objectSize (d : S3Driver) (st : Store) (key : String) : Except DriverErr Int :=
  match st.headObject key with
  | .error e => .error (.sizeCheckFailed (fqdn d key) e)
  | .ok resp => .ok (resp.contentLength.getD 0)

/-- The upload phase of `PutFile` (lines 299-321), reached once all guards
have passed: upload, then determine the final size with a head call.
Metrics failures are only logged and do not change the result. -/
def putAfterProbe (d : S3Driver) (st : Store) (key : String) : Except DriverErr Int :=
  match st.upload key with
  | .error _ => .error (.putSourceFailed (fqdn d key))
  | .ok _ => objectSize d st key

/-- `PutFile`: capability gate, nil-data gate, append-mode gate, optional
overwrite probe, then the upload phase. `data` is `none` for a nil
`io.Reader`. On the error paths the Go function returns `-1` for the size. -/
def PutFile (d : S3Driver) (st : Store) (key : String) (data : Option Unit)
    (appendMode : Bool) : Except DriverErr Int :=
  if d.featureFlags &&& featurePut = 0 then .error (.notEnabled "PUT")
  else if data.isNone then .error .emptyData
  else if appendMode then .error (.appendNotSupported (fqdn d key))
  else if d.noOverwrite ∧ objectExists d st key then .error (.alreadyExists (fqdn d key))
  else putAfterProbe d st key

/-! ## The capability-set parser (`parseFeatureSet` in the driver factory) -/

/-- Errors of `parseFeatureSet`: `errors.New("Empty feature set")` and
`fmt.Errorf("Unknown feature flag: %q", feature)`. -/
inductive ParseErr where
  | emptySet
  | unknownFlag (token : String)
deriving DecidableEq, Repr

/-- The token loop of `parseFeatureSet`: `switch strings.ToLower(feature)`
over the split tokens, OR-ing the matching bit into the accumulator. -/
def parseLoop : List String → Nat → Except ParseErr Nat
  | [], acc => .ok acc
  | f :: rest, acc =>
    match goToLower f with
    | "cd" => parseLoop rest (acc ||| featureChangeDir)
    | "ls" => parseLoop rest (acc ||| featureList)
    | "rmdir" => parseLoop rest (acc ||| featureRemoveDir)
    | "rm" => parseLoop rest (acc ||| featureRemove)
    | "mv" => parseLoop rest (acc ||| featureMove)
    | "mkdir" => parseLoop rest (acc ||| featureMakeDir)
    | "get" => parseLoop rest (acc ||| featureGet)
    | "put" => parseLoop rest (acc ||| featurePut)
    | _ => .error (.unknownFlag f)

/-- `parseFeatureSet`: trim, reject empty, split on commas and fold the
token loop from `0`. -/
def parseFeatureSet (featureSet : String) : Except ParseErr Nat :=
  let featureSet := goTrimSpace featureSet
  if featureSet = "" then .error .emptySet
  else parseLoop (goSplit featureSet ',') 0

/-! ## Byte-level primitives for the legacy signer

Bytes are `Nat` values below 256, 32-bit words are `Nat` values below
`2 ^ 32`, with explicit wrap-around where Go overflows. -/

/-- UTF-8 encoding of one code point (Go `[]byte(string)`). -/
def utf8Bytes (n : Nat) : List Nat :=
  if n < 128 then [n]
  else if n < 2048 then [192 + n / 64, 128 + n % 64]
  else if n < 65536 then [224 + n / 4096, 128 + n / 64 % 64, 128 + n % 64]
  else [240 + n / 262144, 128 + n / 4096 % 64, 128 + n / 64 % 64, 128 + n % 64]

/-- The UTF-8 bytes of a string (Go `[]byte(s)`). -/
def strBytes (s : String) : List Nat :=
  (s.data.map (fun c => utf8Bytes c.toNat)).flatten

/-- Truncation to a 32-bit word. -/
def w32 (n : Nat) : Nat := n % 4294967296

/-- Left rotation of a 32-bit word. -/
def rotl32 (x n : Nat) : Nat := w32 (x <<< n) ||| (x >>> (32 - n))

/-- The five 32-bit words of a SHA-1 state. -/
structure Sha1State where
  h0 : Nat
  h1 : Nat
  h2 : Nat
  h3 : Nat
  h4 : Nat
deriving Repr

/-- SHA-1 round function `f` (FIPS 180: Ch, Parity, Maj, Parity). -/
def sha1F (t b c d : Nat) : Nat :=
  if t < 20 then (b &&& c) ||| ((2 ^ 32 - 1 - b) &&& d)
  else if t < 40 then b ^^^ c ^^^ d
  else if t < 60 then (b &&& c) ||| (b &&& d) ||| (c &&& d)
  else b ^^^ c ^^^ d

/-- SHA-1 round constant `K`. -/
def sha1K (t : Nat) : Nat :=
  if t < 20 then 0x5A827999
  else if t < 40 then 0x6ED9EBA1
  else if t < 60 then 0x8F1BBCDC
  else 0xCA62C1D6

/-- Message-schedule extension: from `w` (reversed: head is `W[t-1]`)
produce `W[t] = ROTL1(W[t-3] xor W[t-8] xor W[t-14] xor W[t-16])`. -/
def sha1Extend (w : List Nat) : Nat :=
  rotl32 ((w.getD 2 0) ^^^ (w.getD 7 0) ^^^ (w.getD 13 0) ^^^ (w.getD 15 0)) 1

/-- Run rounds `t, t+1, ..., 79` of one SHA-1 block. `w` holds the schedule
so far, reversed. -/
def sha1Rounds : Nat → List Nat → Nat → Nat → Nat → Nat → Nat → Sha1State
  | 0, _, a, b, c, d, e => ⟨a, b, c, d, e⟩
  | n + 1, w, a, b, c, d, e =>
    let t := 80 - (n + 1)
    let wt := if t < 16 then w.getD (w.length - 1 - t) 0 else sha1Extend w
    let w' := if t < 16 then w else wt :: w
    let temp := w32 (rotl32 a 5 + sha1F t b c d + e + sha1K t + wt)
    sha1Rounds n w' temp a (rotl32 b 30) c d

/-- Big-endian 32-bit words from a byte list (length a multiple of 4). -/
def bytesToWords : List Nat → List Nat
  | b0 :: b1 :: b2 :: b3 :: rest => (b0 * 16777216 + b1 * 65536 + b2 * 256 + b3) :: bytesToWords rest
  | _ => []

/-- Split a byte list into 64-byte blocks (`fuel`-guarded structural
recursion; `fuel = l.length` suffices since every step consumes at least
one byte). -/
def toBlocksAux : Nat → List Nat → List (List Nat)
  | 0, _ => []
  | _ + 1, [] => []
  | fuel + 1, x :: rest => ((x :: rest).take 64) :: toBlocksAux fuel ((x :: rest).drop 64)

/-- Split a byte list into 64-byte blocks. -/
def toBlocks (l : List Nat) : List (List Nat) :=
  toBlocksAux l.length l

/-- Process one 64-byte block. -/
def sha1Block (s : Sha1State) (block : List Nat) : Sha1State :=
  let w0 := (bytesToWords block).reverse
  let r := sha1Rounds 80 w0 s.h0 s.h1 s.h2 s.h3 s.h4
  ⟨w32 (s.h0 + r.h0), w32 (s.h1 + r.h1), w32 (s.h2 + r.h2),
   w32 (s.h3 + r.h3), w32 (s.h4 + r.h4)⟩

/-- SHA-1 padding: `0x80`, zeros, then the 64-bit big-endian bit length. -/
def sha1Pad (msg : List Nat) : List Nat :=
  let len := msg.length
  let zeros := (64 - (len + 9) % 64) % 64
  let bitLen := len * 8
  msg ++ [128] ++ List.replicate zeros 0 ++
    [bitLen / 72057594037927936 % 256, bitLen / 281474976710656 % 256,
     bitLen / 1099511627776 % 256, bitLen / 4294967296 % 256,
     bitLen / 16777216 % 256, bitLen / 65536 % 256,
     bitLen / 256 % 256, bitLen % 256]

/-- A 32-bit word as four big-endian bytes. -/
def wordBytes (x : Nat) : List Nat :=
  [x / 16777216 % 256, x / 65536 % 256, x / 256 % 256, x % 256]

/-- SHA-1 of a byte list (model of Go `crypto/sha1`), as 20 bytes. -/
def sha1 (msg : List Nat) : List Nat :=
  let init : Sha1State := ⟨0x67452301, 0xEFCDAB89, 0x98BADCFE, 0x10325476, 0xC3D2E1F0⟩
  let final := (toBlocks (sha1Pad msg)).foldl sha1Block init
  wordBytes final.h0 ++ wordBytes final.h1 ++ wordBytes final.h2 ++
    wordBytes final.h3 ++ wordBytes final.h4

/-- HMAC-SHA1 (model of Go `crypto/hmac` with `sha1.New`). -/
def hmacSha1 (key msg : List Nat) : List Nat :=
  let key := if 64 < key.length then sha1 key else key
  let key := key ++ List.replicate (64 - key.length) 0
  let ipad := key.map (fun b => b ^^^ 0x36)
  let opad := key.map (fun b => b ^^^ 0x5c)
  sha1 (opad ++ sha1 (ipad ++ msg))

/-- The base64 standard alphabet. -/
def b64Char (n : Nat) : Char :=
  "ABCDEFGHIJKLMNOPQRSTUVWXYZabcdefghijklmnopqrstuvwxyz0123456789+/".data.getD n 'A'

/-- Model of Go `base64.StdEncoding.EncodeToString`. -/
def base64Encode : List Nat → String
  | [] => ""
  | [a] => String.mk [b64Char (a / 4), b64Char (a % 4 * 16), '=', '=']
  | [a, b] => String.mk [b64Char (a / 4), b64Char (a % 4 * 16 + b / 16), b64Char (b % 16 * 4), '=']
  | a :: b :: c :: rest =>
    String.mk [b64Char (a / 4), b64Char (a % 4 * 16 + b / 16),
               b64Char (b % 16 * 4 + c / 64), b64Char (c % 64)] ++ base64Encode rest

/-! ## URL escaping and header canonicalization for the signer -/

/-- Upper-case hex digit. -/
def hexDigit (n : Nat) : Char := "0123456789ABCDEF".data.getD n '0'

/-- `%XX` escape of one byte. -/
def pctEscape (b : Nat) : List Char := ['%', hexDigit (b / 16), hexDigit (b % 16)]

/-- Unreserved byte for URL encoding: `A-Z a-z 0-9 - _ . ~`. -/
def isUnreserved (b : Nat) : Bool :=
  (65 ≤ b ∧ b ≤ 90) ∨ (97 ≤ b ∧ b ≤ 122) ∨ (48 ≤ b ∧ b ≤ 57) ∨
    b = 45 ∨ b = 95 ∨ b = 46 ∨ b = 126

/-- Model of Go `url.QueryEscape`: unreserved bytes kept, space becomes
`'+'`, every other byte `%XX`. -/
def queryEscape (s : String) : String :=
  String.mk ((strBytes s).flatMap (fun b =>
    if isUnreserved b then [Char.ofNat b]
    else if b = 32 then ['+']
    else pctEscape b))

/-- Model of `rest.EscapePath(path, encodeSep)` from the aws-sdk: unreserved
bytes and (when `encodeSep` is false) `'/'` kept, every other byte `%XX`. -/
def escapePath (path : String) (encodeSep : Bool) : String :=
  String.mk ((strBytes path).flatMap (fun b =>
    if isUnreserved b ∨ (b = 47 ∧ ¬ encodeSep) then [Char.ofNat b]
    else pctEscape b))

/-- Capitalize one dash-separated part: first character upper-cased, the
rest lower-cased. -/
def capitalizePart (s : String) : String :=
  match s.data with
  | [] => ""
  | c :: rest => String.mk (upperChar c :: rest.map lowerChar)

/-- Model of Go `http.CanonicalHeaderKey` (`textproto.CanonicalMIMEHeaderKey`)
for valid header names: each dash-separated word capitalized. -/
def canonicalHeaderKey (k : String) : String :=
  joinSep "-" ((goSplit k '-').map capitalizePart)

/-- `http.Header` / `url.Values`: a list of (key, values) pairs; the Go maps
hold each key at most once. -/
abbrev KVList := List (String × List String)

/-- `http.Header.Get`: first value under the canonical key, `""` if absent. -/
def headerGet (h : KVList) (k : String) : String :=
  match h.lookup (canonicalHeaderKey k) with
  | some (v :: _) => v
  | _ => ""

/-- Direct indexing `h[k]` (no canonicalization), absent key gives `[]`. -/
def headerValues (h : KVList) (k : String) : List String :=
  (h.lookup k).getD []

/-- Remove a key. -/
def eraseKey (h : KVList) (k : String) : KVList :=
  h.filter (fun p => p.1 ≠ k)

/-- `http.Header.Set`: replace all values under the canonical key. -/
def headerSet (h : KVList) (k v : String) : KVList :=
  (canonicalHeaderKey k, [v]) :: eraseKey h (canonicalHeaderKey k)

/-- `http.Header.Del`. -/
def headerDel (h : KVList) (k : String) : KVList :=
  eraseKey h (canonicalHeaderKey k)

/-- `url.Values.Get`: first value, `""` if absent. -/
def queryGet (q : KVList) (k : String) : String :=
  match q.lookup k with
  | some (v :: _) => v
  | _ => ""

/-! ## The legacy signer (`s3ext`, signature version 2) -/

/-- The fixed sub-resource whitelist (`var subresources`), in source order. -/
def subresources : List String :=
  ["acl", "delete", "lifecycle", "location", "logging", "notification",
   "partNumber", "policy", "requestPayment", "torrent", "uploadId",
   "uploads", "versionId", "versioning", "versions", "website"]

/-- Credential value returned by `Credentials.Get()`. -/
structure CredValue where
  accessKeyID : String
  secretAccessKey : String
  sessionToken : String
deriving DecidableEq, Repr

/-- Credential retrieval failure (propagated verbatim by `Sign`). -/
structure CredErr where
  msg : String
deriving DecidableEq, Repr

/-- The parts of the outgoing `http.Request` the signer reads. `urlOpq` is
`URL.Opaque`, `query` is the parsed `URL.Query()`. -/
structure SignRequest where
  method : String
  urlOpq : String
  urlPath : String
  urlHost : String
  query : KVList
  header : KVList
deriving Repr

/-- What `Sign` produces: the mutated header map plus the signer's
`stringToSign` and `signature` fields. -/
structure SignResult where
  header : KVList
  stringToSign : String
  signature : String
deriving Repr

/-- Lines 111-119 of the signer: the raw uri — from `URL.Opaque` (query part
cut off at `'?'`, then the first three slash-separated pieces dropped and the
rest rejoined behind `"/"`), or `URL.Path` when `Opaque` is empty. -/
def canonUri (req : SignRequest) : String :=
  if req.urlOpq ≠ "" then
    let u := match req.urlOpq.data.findIdx? (fun c => c = '?') with
      | some i => String.mk (req.urlOpq.data.take i)
      | none => req.urlOpq
    "/" ++ joinSep "/" ((goSplit u '/').drop 3)
  else req.urlPath

/-- Lines 120-127: the canonical resource path. Path-style: the escaped uri.
Otherwise: `"/"` + the first dot-separated label of the host + the raw uri.
An empty result becomes `"/"`. -/
def canonPathOf (pathStyle : Bool) (req : SignRequest) : String :=
  let uri := canonUri req
  let path := escapePath uri false
  let path := if ¬ pathStyle then "/" ++ ((goSplit req.urlHost '.').headD "") ++ uri else path
  if path = "" then "/" else path

/-- Lines 133-138: the URL-encoded `key` or `key=value` part for one present
sub-resource (`+` re-encoded as `%20`, `=value` only for a non-empty encoded
value). -/
def queryPartOf (query : KVList) (key : String) : String :=
  let k := plusTo20 (queryEscape key)
  let v := plusTo20 (queryEscape (queryGet query key))
  let v := if v ≠ "" then "=" ++ v else v
  k ++ v

/-- Lines 129-140: the URL-encoded `key` or `key=value` parts, iterating the
`subresources` whitelist in its fixed order. -/
def canonQueryParts (query : KVList) : List String :=
  subresources.foldl (fun acc key =>
    if (query.lookup key).isSome then acc ++ [queryPartOf query key]
    else acc) []

/-- Lines 142-143: the canonical query string. -/
def canonQueryOf (query : KVList) : String :=
  joinSep "&" (canonQueryParts query)

/-- Lines 145-147: the canonical resource — path plus `?query` when the
canonical query string is non-empty. -/
def resourceOf (pathStyle : Bool) (req : SignRequest) : String :=
  let path := canonPathOf pathStyle req
  let query := canonQueryOf req.query
  if query ≠ "" then path ++ "?" ++ query else path

/-- Byte-lexicographic order on strings used by `sort.Strings` (UTF-8 byte
order coincides with code-point order). -/
def strDataLe (s t : String) : Prop := s.data ≤ t.data

instance : DecidableRel strDataLe :=
  fun s t => inferInstanceAs (Decidable (s.data ≤ t.data))

/-- Model of `sort.Strings`. -/
def sortStrings (l : List String) : List String :=
  List.insertionSort strDataLe l

/-- Lines 156-163: the lower-cased `x-amz-` header names, sorted. -/
def vendorNamesOf (h : KVList) : List String :=
  sortStrings (((h.map (fun p => goToLower p.1))).filter (fun k => goHasPre k "x-amz-"))

/-- Lines 165-168: one canonical header line `name:value,value,...`, the
values looked up under the canonical form of the (lower-cased) name. -/
def renderHeaderLine (h : KVList) (k : String) : String :=
  k ++ ":" ++ joinSep "," (headerValues h (canonicalHeaderKey k))

/-- `signer.Sign` (lines 89-186): read `Content-MD5` / `Content-Type`, set
the `x-amz-date` header (and `x-amz-security-token` when a session token is
present), clear `Authorization`, build the canonical string, HMAC-SHA1 it
with the secret key, base64 the digest and set the `Authorization` header.
`date` stands for `Time.UTC().Format(timeFormat)`. -/
def sign (pathStyle : Bool) (creds : Except CredErr CredValue) (date : String)
    (req : SignRequest) : Except CredErr SignResult :=
  match creds with
  | .error e => .error e
  | .ok cv =>
    let contentMD5 := headerGet req.header "Content-MD5"
    let contentType := headerGet req.header "Content-Type"
    let hdr := headerSet req.header "x-amz-date" date
    let hdr := if cv.sessionToken ≠ "" then headerSet hdr "x-amz-security-token" cv.sessionToken else hdr
    let hdr := headerDel hdr "Authorization"
    let resource := resourceOf pathStyle req
    let lines := (vendorNamesOf hdr).map (renderHeaderLine hdr)
    let sts := joinSep "\n" ([req.method, contentMD5, contentType, ""] ++ lines ++ [resource])
    let sig := base64Encode (hmacSha1 (strBytes cv.secretAccessKey) (strBytes sts))
    let hdr := headerSet hdr "Authorization" ("AWS " ++ cv.accessKeyID ++ ":" ++ sig)
    .ok { header := hdr, stringToSign := sts, signature := sig }

/-! ## Concrete fixtures used by witnesses and counterexamples -/

/-- A driver with every capability enabled. -/
def dEx : S3Driver :=
  { featureFlags := 255, noOverwrite := false, bucketName := "mybucket",
    bucketURL := { scheme := "https", host := "mybucket.s3.amazonaws.com" }, cwd := "" }

/-- The four keys of the specification's listing example. -/
def objsEx : List S3Object :=
  [{ key := "reports/a.txt", size := 10, owner := some "own", lastModified := 111 },
   { key := "reports/sub/b.txt", size := 20, owner := none, lastModified := 222 },
   { key := "reports/sub/c.txt", size := 30, owner := none, lastModified := 333 },
   { key := "other/x.txt", size := 40, owner := none, lastModified := 444 }]

/-- The store of the listing example: the four keys of the specification,
head-object always `NotFound`. -/
def stEx : Store :=
  { headBucket := .ok ()
    headObject := fun _ => .error { code := "NotFound", message := "no such key" }
    listObjects := .ok objsEx
    upload := fun _ => .ok () }

/-- A store whose head-object call fails with an error other than
not-found (the store being unreachable). -/
def stDown : Store :=
  { headBucket := .ok ()
    headObject := fun _ => .error { code := "RequestTimeout", message := "unreachable" }
    listObjects := .error { code := "RequestTimeout", message := "unreachable" }
    upload := fun _ => .ok () }

/-- A store where every object exists. -/
def stHit : Store :=
  { headBucket := .ok ()
    headObject := fun _ => .ok { contentLength := some 42, lastModified := some 777 }
    listObjects := .ok []
    upload := fun _ => .ok () }

/-! ## C1 — `Stat`: not-found becomes a pseudo-directory, other errors propagate -/

/-- C1: for every key whose head-object call reports `"NotFound"`, `Stat`
returns the synthetic pseudo-directory entry (`isPrefix` true, size `0`,
current timestamp) and no error; for every other head-object error, `Stat`
returns that store error unchanged. -/
theorem stat_notfound_gives_pseudo_dir
    (d : S3Driver) (st : Store) (key : String) (now : Nat) (e : AwsErr)
    (hb : st.headBucket = .ok ())
    (ho : st.headObject key = .error e) :
    (e.code = "NotFound" →
      Stat d st key now =
        .ok { name := key, size := 0, owner := "", modTime := now, isPfx := true }) ∧
    (e.code ≠ "NotFound" → Stat d st key now = .error (.aws e)) := by
  unfold Stat bucketCheck
  rw [hb, ho]
  constructor
  · intro h
    simp [h]
  · intro h
    simp [h]

/-- Witness for C1 at the concrete stores: a missing key yields the
pseudo-directory entry, a timeout error is propagated unchanged. -/
theorem stat_notfound_gives_pseudo_dir_witness :
    Stat dEx stEx "reports/" 999 =
      .ok { name := "reports/", size := 0, owner := "", modTime := 999, isPfx := true } ∧
    Stat dEx stDown "reports/" 999 =
      .error (.aws { code := "RequestTimeout", message := "unreachable" }) :=
  ⟨(stat_notfound_gives_pseudo_dir dEx stEx "reports/" 999
      { code := "NotFound", message := "no such key" } rfl rfl).1 rfl,
   (stat_notfound_gives_pseudo_dir dEx stDown "reports/" 999
      { code := "RequestTimeout", message := "unreachable" } rfl rfl).2 (by decide)⟩

/-! ## C9 — `Stat` marks every successful result as a directory -/

/-- C9: for every key whose head-object call succeeds, `Stat` returns an
entry with the pseudo-directory flag set to `true`, while reporting the
object's size (`0` for a nil `ContentLength`) and its last-modified time
(`now` for a nil `LastModified`). -/
theorem stat_success_marks_directory
    (d : S3Driver) (st : Store) (key : String) (now : Nat) (resp : HeadResp)
    (hb : st.headBucket = .ok ())
    (ho : st.headObject key = .ok resp) :
    Stat d st key now =
      .ok { name := key, size := resp.contentLength.getD 0, owner := "",
            modTime := resp.lastModified.getD now, isPfx := true } := by
  unfold Stat bucketCheck
  rw [hb, ho]

/-- Witness for C9: an existing 42-byte object is still reported with the
pseudo-directory flag set. -/
theorem stat_success_marks_directory_witness :
    Stat dEx stHit "k.txt" 999 =
      .ok { name := "k.txt", size := 42, owner := "", modTime := 777, isPfx := true } :=
  stat_success_marks_directory dEx stHit "k.txt" 999
    { contentLength := some 42, lastModified := some 777 } rfl rfl

/-! ## C10 — overwrite protection fails open on probe errors -/

/-- C10: any head-object failure — not-found or otherwise — makes
`objectExists` return `false`, and `PutFile` under overwrite protection then
proceeds with the upload phase instead of failing the operation. -/
theorem overwrite_probe_fails_open
    (d : S3Driver) (st : Store) (key : String) (e : AwsErr)
    (ho : st.headObject key = .error e)
    (_hno : d.noOverwrite = true)
    (hput : d.featureFlags &&& featurePut ≠ 0) :
    objectExists d st key = false ∧
    PutFile d st key (some ()) false = putAfterProbe d st key := by
  have hex : objectExists d st key = false := by
    unfold objectExists
    rw [ho]
    exact ite_self false
  refine ⟨hex, ?_⟩
  unfold PutFile
  simp [hput, hex]

/-- Witness for C10: with the store unreachable (a timeout, not a
not-found), the probe reports "does not exist" and the upload phase runs —
here failing only later, at the post-upload size check. -/
theorem overwrite_probe_fails_open_witness :
    objectExists { dEx with noOverwrite := true } stDown "k.txt" = false ∧
    PutFile { dEx with noOverwrite := true } stDown "k.txt" (some ()) false =
      putAfterProbe { dEx with noOverwrite := true } stDown "k.txt" :=
  overwrite_probe_fails_open { dEx with noOverwrite := true } stDown "k.txt"
    { code := "RequestTimeout", message := "unreachable" } rfl rfl (by decide)

/-! ## C3 — `ChangeDir` and the value receiver (code bug) -/

/-- C3 (code bug): `ChangeDir` does succeed unconditionally, but it is
declared on a value receiver, so the write to `cwd` happens on a discarded
copy: after `CD /foo` the connection's working path is still `""` and a
subsequent `fqdn` resolves `bar.txt` against the old path, not
`/foo/bar.txt` as the claim (and the code's own comment about keeping track
of `CD` calls) requires. The final conjunct shows the discarded copy did
record the path. -/
theorem changedir_value_receiver_loses_path :
    (connChangeDir dEx "/foo").2 = none ∧
    (connChangeDir dEx "/foo").1.cwd = "" ∧
    fqdn (connChangeDir dEx "/foo").1 "bar.txt" =
      "https://mybucket.s3.amazonaws.com/bar.txt" ∧
    fqdn { dEx with cwd := "/foo" } "bar.txt" =
      "https://mybucket.s3.amazonaws.com/foo/bar.txt" ∧
    (ChangeDirBody dEx "/foo").1.cwd = "/foo" := by
  refine ⟨rfl, rfl, by decide, by decide, rfl⟩

/-! ## C5 — the unsupported operations and their errors (corrected) -/

/-- A driver with only the put capability, used to show the append-mode
error is not the "not enabled" error. -/
def dPutOnly : S3Driver :=
  { featureFlags := featurePut, noOverwrite := false, bucketName := "mybucket",
    bucketURL := { scheme := "https", host := "mybucket.s3.amazonaws.com" }, cwd := "" }

/-- C5 counterexample: with the put capability enabled and a non-nil data
source, an append-mode `PutFile` fails with the dedicated "backend does not
support appending" error, which is not the fixed "not enabled" error the
claim promises. -/
theorem putfile_append_error_not_notenabled :
    PutFile dPutOnly stEx "k.txt" (some ()) true =
      .error (.appendNotSupported "https://mybucket.s3.amazonaws.com/k.txt") ∧
    (Except.error (DriverErr.appendNotSupported "https://mybucket.s3.amazonaws.com/k.txt") :
        Except DriverErr Int) ≠
      .error (.notEnabled "PUT") := by
  refine ⟨rfl, ?_⟩
  intro h
  simp at h

/-- C5 amended: `DeleteDir`, `Rename` and `MakeDir` always fail with the
fixed "not enabled" error, for any input and driver configuration; `PutFile`
in append mode always fails too, but when the put capability is enabled and
the data source is non-nil the failure is the distinct "backend does not
support appending" error, not the "not enabled" one. -/
theorem unsupported_ops_always_fail
    : (∀ (d : S3Driver) (key : String), DeleteDir d key = .error (.notEnabled "RMDIR")) ∧
    (∀ (d : S3Driver) (o n : String), Rename d o n = .error (.notEnabled "MV")) ∧
    (∀ (d : S3Driver) (key : String), MakeDir d key = .error (.notEnabled "MKDIR")) ∧
    (∀ (d : S3Driver) (st : Store) (key : String) (data : Option Unit),
      ∃ e, PutFile d st key data true = .error e) ∧
    (∀ (d : S3Driver) (st : Store) (key : String),
      d.featureFlags &&& featurePut ≠ 0 →
      PutFile d st key (some ()) true = .error (.appendNotSupported (fqdn d key))) := by
  refine ⟨fun _ _ => rfl, fun _ _ _ => rfl, fun _ _ => rfl, ?_, ?_⟩
  · intro d st key data
    unfold PutFile
    by_cases h : d.featureFlags &&& featurePut = 0
    · exact ⟨.notEnabled "PUT", by simp [h]⟩
    · cases data with
      | none => exact ⟨.emptyData, by simp [h]⟩
      | some _ => exact ⟨.appendNotSupported (fqdn d key), by simp [h]⟩
  · intro d st key h
    unfold PutFile
    simp [h]

/-- Witness for C5 (amended): the three directory operations fail with
their fixed errors, and the append-mode put fails with the appending error
on the concrete driver. -/
theorem unsupported_ops_always_fail_witness :
    DeleteDir dEx "a" = .error (.notEnabled "RMDIR") ∧
    Rename dEx "a" "b" = .error (.notEnabled "MV") ∧
    MakeDir dEx "a" = .error (.notEnabled "MKDIR") ∧
    PutFile dPutOnly stEx "k.txt" (some ()) true =
      .error (.appendNotSupported (fqdn dPutOnly "k.txt")) :=
  ⟨unsupported_ops_always_fail.1 dEx "a",
   unsupported_ops_always_fail.2.1 dEx "a" "b",
   unsupported_ops_always_fail.2.2.1 dEx "a",
   unsupported_ops_always_fail.2.2.2.2 dPutOnly stEx "k.txt" (by decide)⟩

/-! ## C4 — the capability-set parser -/

/-- The eight capability verbs. -/
inductive Feature where
  | cd | ls | rmdir | rm | mv | mkdir | get | put
deriving DecidableEq, Fintype

/-- Bit position of each verb (`1 << iota` order). -/
def featureBitIdx : Feature → Nat
  | .cd => 0 | .ls => 1 | .rmdir => 2 | .rm => 3
  | .mv => 4 | .mkdir => 5 | .get => 6 | .put => 7

/-- The flag constant of each verb. -/
def featureBit : Feature → Nat
  | .cd => featureChangeDir | .ls => featureList | .rmdir => featureRemoveDir
  | .rm => featureRemove | .mv => featureMove | .mkdir => featureMakeDir
  | .get => featureGet | .put => featurePut

/-- The configuration token of each verb (the `switch` cases). -/
def featureToken : Feature → String
  | .cd => "cd" | .ls => "ls" | .rmdir => "rmdir" | .rm => "rm"
  | .mv => "mv" | .mkdir => "mkdir" | .get => "get" | .put => "put"

/-- `has(verb)`: the bitwise test the driver performs
(`d.featureFlags & featureX != 0`). -/
def hasFeature (flags : Nat) (v : Feature) : Prop := flags &&& featureBit v ≠ 0

theorem featureBit_eq_two_pow (v : Feature) : featureBit v = 2 ^ featureBitIdx v := by
  cases v <;> rfl

theorem hasFeature_iff_testBit (flags : Nat) (v : Feature) :
    hasFeature flags v ↔ flags.testBit (featureBitIdx v) = true := by
  unfold hasFeature
  rw [featureBit_eq_two_pow, Nat.and_two_pow]
  cases h : flags.testBit (featureBitIdx v) with
  | false => simp
  | true => simp

/-- OR-ing in one verb's bit enables exactly that verb in addition. -/
theorem hasFeature_lor (acc : Nat) (v w : Feature) :
    hasFeature (acc ||| featureBit w) v ↔ (hasFeature acc v ∨ v = w) := by
  rw [hasFeature_iff_testBit, hasFeature_iff_testBit]
  rw [featureBit_eq_two_pow, Nat.testBit_lor, Nat.testBit_two_pow]
  have hidx : (featureBitIdx w = featureBitIdx v) ↔ v = w := by
    constructor
    · intro h
      revert h
      cases v <;> cases w <;> decide
    · intro h
      rw [h]
  simp [hidx]

/-- The token loop's flag accumulation: a successful parse enables exactly
the verbs already in `acc` plus those named (after lower-casing) by a token. -/
theorem parseLoop_flags (v : Feature) (toks : List String) :
    ∀ (acc flags : Nat), parseLoop toks acc = .ok flags →
    (hasFeature flags v ↔ (hasFeature acc v ∨ ∃ t ∈ toks, goToLower t = featureToken v)) := by
  induction toks with
  | nil =>
    intro acc flags h
    unfold parseLoop at h
    cases h
    simp
  | cons f rest ih =>
    intro acc flags h
    unfold parseLoop at h
    have hmem : ∀ (w : Feature), goToLower f = featureToken w →
        ((∃ t ∈ f :: rest, goToLower t = featureToken v) ↔
          (v = w ∨ ∃ t ∈ rest, goToLower t = featureToken v)) := by
      intro w hw
      simp only [List.mem_cons]
      constructor
      · rintro ⟨t, ht, htv⟩
        cases ht with
        | inl h1 =>
          subst h1
          left
          rw [hw] at htv
          revert htv
          cases v <;> cases w <;> decide
        | inr h1 => exact Or.inr ⟨t, h1, htv⟩
      · rintro (h1 | ⟨t, ht, htv⟩)
        · subst h1
          exact ⟨f, Or.inl rfl, hw⟩
        · exact ⟨t, Or.inr ht, htv⟩
    split at h
    case _ heq =>
      rw [ih _ _ h, hmem Feature.cd heq,
        show (featureChangeDir : Nat) = featureBit Feature.cd from rfl, hasFeature_lor]
      tauto
    case _ heq =>
      rw [ih _ _ h, hmem Feature.ls heq,
        show (featureList : Nat) = featureBit Feature.ls from rfl, hasFeature_lor]
      tauto
    case _ heq =>
      rw [ih _ _ h, hmem Feature.rmdir heq,
        show (featureRemoveDir : Nat) = featureBit Feature.rmdir from rfl, hasFeature_lor]
      tauto
    case _ heq =>
      rw [ih _ _ h, hmem Feature.rm heq,
        show (featureRemove : Nat) = featureBit Feature.rm from rfl, hasFeature_lor]
      tauto
    case _ heq =>
      rw [ih _ _ h, hmem Feature.mv heq,
        show (featureMove : Nat) = featureBit Feature.mv from rfl, hasFeature_lor]
      tauto
    case _ heq =>
      rw [ih _ _ h, hmem Feature.mkdir heq,
        show (featureMakeDir : Nat) = featureBit Feature.mkdir from rfl, hasFeature_lor]
      tauto
    case _ heq =>
      rw [ih _ _ h, hmem Feature.get heq,
        show (featureGet : Nat) = featureBit Feature.get from rfl, hasFeature_lor]
      tauto
    case _ heq =>
      rw [ih _ _ h, hmem Feature.put heq,
        show (featurePut : Nat) = featureBit Feature.put from rfl, hasFeature_lor]
      tauto
    case _ => cases h

/-- The token loop succeeds when every token names a verb. -/
theorem parseLoop_ok_of_known (toks : List String) :
    ∀ (acc : Nat), (∀ t ∈ toks, ∃ v, goToLower t = featureToken v) →
    ∃ flags, parseLoop toks acc = .ok flags := by
  induction toks with
  | nil => exact fun acc _ => ⟨acc, rfl⟩
  | cons f rest ih =>
    intro acc hall
    obtain ⟨v, hv⟩ := hall f (List.mem_cons_self f rest)
    have hrest : ∀ t ∈ rest, ∃ w, goToLower t = featureToken w :=
      fun t ht => hall t (List.mem_cons_of_mem f ht)
    show ∃ flags, (match goToLower f with
      | "cd" => parseLoop rest (acc ||| featureChangeDir)
      | "ls" => parseLoop rest (acc ||| featureList)
      | "rmdir" => parseLoop rest (acc ||| featureRemoveDir)
      | "rm" => parseLoop rest (acc ||| featureRemove)
      | "mv" => parseLoop rest (acc ||| featureMove)
      | "mkdir" => parseLoop rest (acc ||| featureMakeDir)
      | "get" => parseLoop rest (acc ||| featureGet)
      | "put" => parseLoop rest (acc ||| featurePut)
      | _ => .error (.unknownFlag f)) = .ok flags
    rw [hv]
    cases v <;> exact ih _ hrest

/-- The token loop fails naming an (offending) unknown token when one of the
tokens names no verb. -/
theorem parseLoop_err_of_unknown (toks : List String) :
    ∀ (acc : Nat) (t : String), t ∈ toks → (∀ v, goToLower t ≠ featureToken v) →
    ∃ u, parseLoop toks acc = .error (.unknownFlag u) ∧ ∀ v, goToLower u ≠ featureToken v := by
  induction toks with
  | nil =>
    intro acc t ht
    cases ht
  | cons f rest ih =>
    intro acc t ht hunk
    unfold parseLoop
    split
    case _ heq =>
      refine ih _ t ?_ hunk
      cases ht with
      | head => exact absurd heq (by simpa using hunk Feature.cd)
      | tail _ h1 => exact h1
    case _ heq =>
      refine ih _ t ?_ hunk
      cases ht with
      | head => exact absurd heq (by simpa using hunk Feature.ls)
      | tail _ h1 => exact h1
    case _ heq =>
      refine ih _ t ?_ hunk
      cases ht with
      | head => exact absurd heq (by simpa using hunk Feature.rmdir)
      | tail _ h1 => exact h1
    case _ heq =>
      refine ih _ t ?_ hunk
      cases ht with
      | head => exact absurd heq (by simpa using hunk Feature.rm)
      | tail _ h1 => exact h1
    case _ heq =>
      refine ih _ t ?_ hunk
      cases ht with
      | head => exact absurd heq (by simpa using hunk Feature.mv)
      | tail _ h1 => exact h1
    case _ heq =>
      refine ih _ t ?_ hunk
      cases ht with
      | head => exact absurd heq (by simpa using hunk Feature.mkdir)
      | tail _ h1 => exact h1
    case _ heq =>
      refine ih _ t ?_ hunk
      cases ht with
      | head => exact absurd heq (by simpa using hunk Feature.get)
      | tail _ h1 => exact h1
    case _ heq =>
      refine ih _ t ?_ hunk
      cases ht with
      | head => exact absurd heq (by simpa using hunk Feature.put)
      | tail _ h1 => exact h1
    case _ h1 h2 h3 h4 h5 h6 h7 h8 =>
      refine ⟨f, rfl, ?_⟩
      intro v
      cases v
      · exact fun hc => h1 hc
      · exact fun hc => h2 hc
      · exact fun hc => h3 hc
      · exact fun hc => h4 hc
      · exact fun hc => h5 hc
      · exact fun hc => h6 hc
      · exact fun hc => h7 hc
      · exact fun hc => h8 hc

/-- C4: parsing a capability specification — empty/blank input fails; an
unknown (lower-cased) token makes parsing fail with an error naming an
offending token; an all-known specification parses successfully; and on
success `has(verb)` holds exactly for the verbs listed in the string. -/
theorem parseFeatureSet_correct :
    (∀ s, goTrimSpace s = "" → parseFeatureSet s = .error .emptySet) ∧
    (∀ s t, goTrimSpace s ≠ "" → t ∈ goSplit (goTrimSpace s) ',' →
      (∀ v, goToLower t ≠ featureToken v) →
      ∃ u, parseFeatureSet s = .error (.unknownFlag u) ∧ ∀ v, goToLower u ≠ featureToken v) ∧
    (∀ s, goTrimSpace s ≠ "" →
      (∀ t ∈ goSplit (goTrimSpace s) ',', ∃ v, goToLower t = featureToken v) →
      ∃ flags, parseFeatureSet s = .ok flags) ∧
    (∀ s flags, parseFeatureSet s = .ok flags →
      ∀ v, hasFeature flags v ↔ ∃ t ∈ goSplit (goTrimSpace s) ',', goToLower t = featureToken v) := by
  refine ⟨?_, ?_, ?_, ?_⟩
  · intro s h
    unfold parseFeatureSet
    simp [h]
  · intro s t hne ht hunk
    unfold parseFeatureSet
    simp only [hne, if_neg]
    exact parseLoop_err_of_unknown _ 0 t ht hunk
  · intro s hne hall
    unfold parseFeatureSet
    simp only [hne, if_neg]
    exact parseLoop_ok_of_known _ 0 hall
  · intro s flags h v
    unfold parseFeatureSet at h
    by_cases hne : goTrimSpace s = ""
    · rw [if_pos hne] at h
      cases h
    · rw [if_neg hne] at h
      rw [parseLoop_flags v _ 0 flags h]
      have h0 : ¬ hasFeature 0 v := by
        unfold hasFeature
        simp [Nat.zero_and]
      tauto

/-- Witness for C4: a blank spec fails; `"ls,foo"` fails naming an unknown
token; `"get,put"` parses; and `"ls,PUT"` parses to flags `130` enabling a
verb exactly when the (lower-cased) token list names it. -/
theorem parseFeatureSet_correct_witness :
    parseFeatureSet " " = .error .emptySet ∧
    (∃ u, parseFeatureSet "ls,foo" = .error (.unknownFlag u) ∧
      ∀ v, goToLower u ≠ featureToken v) ∧
    (∃ flags, parseFeatureSet "get,put" = .ok flags) ∧
    (∀ v, hasFeature 130 v ↔
      ∃ t ∈ goSplit (goTrimSpace "ls,PUT") ',', goToLower t = featureToken v) :=
  ⟨parseFeatureSet_correct.1 " " rfl,
   parseFeatureSet_correct.2.1 "ls,foo" "foo" (by decide) (by decide)
     (by intro v; cases v <;> decide),
   parseFeatureSet_correct.2.2.1 "get,put" (by decide)
     (by
       intro t ht
       rw [show goSplit (goTrimSpace "get,put") ',' = ["get", "put"] from rfl] at ht
       simp only [List.mem_cons, List.not_mem_nil, or_false] at ht
       cases ht with
       | inl h => exact ⟨Feature.get, by rw [h]; decide⟩
       | inr h => exact ⟨Feature.put, by rw [h]; decide⟩),
   parseFeatureSet_correct.2.2.2 "ls,PUT" 130 rfl⟩

/-! ## C2 — `ListDir` emits each immediate child once -/

/-- The relative name of a key under the effective prefix (`key` with the
leading `/` trimmed), when the key matches the prefix filter of the loop. -/
def matchRel (prefixKey key : String) : Option String :=
  if prefixKey ≠ "" ∧ ¬ goHasPre key prefixKey then none
  else some (if prefixKey ≠ "" then goTrimPre key prefixKey else key)

/-- Whether a relative name contains a further path separator (after
trimming one leading `/`), i.e. is displayed as a pseudo-directory. -/
def relHasSep (rel : String) : Bool := goContains (goTrimPre rel "/") "/"

/-- The pseudo-directory display name of a relative name: its first
`/`-separated segment. -/
def dirNameOf (rel : String) : String := goTrimPre ((goSplit rel '/').headD "") "/"

/-- The entry emitted for a plain object with relative name `rel`. -/
def fileEntryOf (o : S3Object) (rel : String) : S3ObjectInfo :=
  { name := goTrimPre rel "/", size := o.size, owner := o.owner.getD "",
    modTime := o.lastModified, isPfx := false }

/-- The entry emitted the first time pseudo-directory `rel` is seen. -/
def dirEntryOf (o : S3Object) (rel : String) : S3ObjectInfo :=
  { name := dirNameOf rel, size := o.size, owner := o.owner.getD "",
    modTime := o.lastModified, isPfx := true }

/-- One real-object entry per matching separator-free key, in response
order. -/
def expectedFiles (prefixKey : String) (objs : List S3Object) : List S3ObjectInfo :=
  objs.filterMap (fun o =>
    match matchRel prefixKey o.key with
    | none => none
    | some rel => if relHasSep rel then none else some (fileEntryOf o rel))

/-- The pseudo-directory names of all matching keys with a separator
(with repetitions). -/
def expectedDirNames (prefixKey : String) (objs : List S3Object) : List String :=
  objs.filterMap (fun o =>
    match matchRel prefixKey o.key with
    | none => none
    | some rel => if relHasSep rel then some (dirNameOf rel) else none)

theorem listLoop_skip (pk : String) (obj : S3Object) (rest : List S3Object)
    (folders : List String) (hm : matchRel pk obj.key = none) :
    listLoop pk (obj :: rest) folders = listLoop pk rest folders := by
  unfold matchRel at hm
  by_cases hc : pk ≠ "" ∧ ¬ goHasPre obj.key pk
  · simp only [listLoop]
    rw [if_pos hc]
  · rw [if_neg hc] at hm
    cases hm

theorem listLoop_file (pk : String) (obj : S3Object) (rest : List S3Object)
    (folders : List String) (rel : String)
    (hm : matchRel pk obj.key = some rel) (hs : relHasSep rel = false) :
    listLoop pk (obj :: rest) folders =
      fileEntryOf obj rel :: listLoop pk rest folders := by
  unfold matchRel at hm
  unfold relHasSep at hs
  by_cases hc : pk ≠ "" ∧ ¬ goHasPre obj.key pk
  · rw [if_pos hc] at hm
    cases hm
  · rw [if_neg hc] at hm
    injection hm with hrel
    simp only [listLoop]
    rw [if_neg hc, hrel]
    simp only [hs, Bool.false_eq_true, if_false, false_and, fileEntryOf]

theorem listLoop_dir_seen (pk : String) (obj : S3Object) (rest : List S3Object)
    (folders : List String) (rel : String)
    (hm : matchRel pk obj.key = some rel) (hs : relHasSep rel = true)
    (hf : dirNameOf rel ∈ folders) :
    listLoop pk (obj :: rest) folders = listLoop pk rest folders := by
  unfold matchRel at hm
  unfold relHasSep at hs
  by_cases hc : pk ≠ "" ∧ ¬ goHasPre obj.key pk
  · rw [if_pos hc] at hm
    cases hm
  · rw [if_neg hc] at hm
    injection hm with hrel
    simp only [listLoop]
    rw [if_neg hc, hrel]
    simp only [hs, if_true]
    rw [if_pos ⟨trivial, hf⟩]

theorem listLoop_dir_new (pk : String) (obj : S3Object) (rest : List S3Object)
    (folders : List String) (rel : String)
    (hm : matchRel pk obj.key = some rel) (hs : relHasSep rel = true)
    (hf : dirNameOf rel ∉ folders) :
    listLoop pk (obj :: rest) folders =
      dirEntryOf obj rel :: listLoop pk rest (dirNameOf rel :: folders) := by
  unfold matchRel at hm
  unfold relHasSep at hs
  by_cases hc : pk ≠ "" ∧ ¬ goHasPre obj.key pk
  · rw [if_pos hc] at hm
    cases hm
  · rw [if_neg hc] at hm
    injection hm with hrel
    simp only [listLoop]
    rw [if_neg hc, hrel]
    simp only [hs, if_true]
    rw [if_neg (fun hcc => hf hcc.2)]
    rfl

/-- The pseudo-directory names of an emitted listing. -/
def dirNames (l : List S3ObjectInfo) : List String :=
  (l.filter (fun e => e.isPfx)).map (fun e => e.name)

/-- The real-object entries of an emitted listing. -/
def fileEntries (l : List S3ObjectInfo) : List S3ObjectInfo :=
  l.filter (fun e => !e.isPfx)

/-- The real-object entries the loop emits are exactly one per matching
separator-free key, in response order, regardless of the seen-set. -/
theorem listLoop_files (pk : String) (objs : List S3Object) :
    ∀ folders, fileEntries (listLoop pk objs folders) = expectedFiles pk objs := by
  induction objs with
  | nil =>
    intro folders
    rfl
  | cons obj rest ih =>
    intro folders
    cases hm : matchRel pk obj.key with
    | none =>
      rw [listLoop_skip _ _ _ _ hm, ih]
      unfold expectedFiles
      simp only [List.filterMap_cons, hm]
    | some rel =>
      cases hs : relHasSep rel with
      | false =>
        rw [listLoop_file _ _ _ _ _ hm hs]
        unfold fileEntries at *
        unfold expectedFiles
        rw [List.filter_cons]
        simp only [List.filterMap_cons, hm, hs, fileEntryOf, Bool.not_false, if_true,
          Bool.false_eq_true, if_false]
        rw [ih]
        rfl
      | true =>
        by_cases hf : dirNameOf rel ∈ folders
        · rw [listLoop_dir_seen _ _ _ _ _ hm hs hf, ih]
          unfold expectedFiles
          simp only [List.filterMap_cons, hm, hs, if_true]
        · rw [listLoop_dir_new _ _ _ _ _ hm hs hf]
          unfold fileEntries at *
          unfold expectedFiles
          rw [List.filter_cons]
          simp only [List.filterMap_cons, hm, hs, dirEntryOf, Bool.not_true,
            Bool.false_eq_true, if_false, if_true]
          rw [ih]
          rfl

/-- The pseudo-directory names the loop emits: no duplicates, and exactly
the names arising from matching separator-containing keys that are not
already in the seen-set. -/
theorem listLoop_dirs (pk : String) (objs : List S3Object) :
    ∀ folders,
      (dirNames (listLoop pk objs folders)).Nodup ∧
      (∀ n, n ∈ dirNames (listLoop pk objs folders) ↔
        (n ∈ expectedDirNames pk objs ∧ n ∉ folders)) := by
  induction objs with
  | nil =>
    intro folders
    refine ⟨List.nodup_nil, ?_⟩
    intro n
    simp [dirNames, expectedDirNames, listLoop]
  | cons obj rest ih =>
    intro folders
    cases hm : matchRel pk obj.key with
    | none =>
      rw [listLoop_skip _ _ _ _ hm]
      refine ⟨(ih folders).1, ?_⟩
      intro n
      rw [(ih folders).2 n]
      unfold expectedDirNames
      simp only [List.filterMap_cons, hm]
    | some rel =>
      cases hs : relHasSep rel with
      | false =>
        rw [listLoop_file _ _ _ _ _ hm hs]
        have hd : dirNames (fileEntryOf obj rel :: listLoop pk rest folders) =
            dirNames (listLoop pk rest folders) := by
          unfold dirNames
          rw [List.filter_cons]
          simp [fileEntryOf]
        rw [hd]
        refine ⟨(ih folders).1, ?_⟩
        intro n
        rw [(ih folders).2 n]
        unfold expectedDirNames
        simp only [List.filterMap_cons, hm, hs, Bool.false_eq_true, if_false]
      | true =>
        by_cases hf : dirNameOf rel ∈ folders
        · rw [listLoop_dir_seen _ _ _ _ _ hm hs hf]
          refine ⟨(ih folders).1, ?_⟩
          intro n
          rw [(ih folders).2 n]
          unfold expectedDirNames
          simp only [List.filterMap_cons, hm, hs, if_true, List.mem_cons]
          constructor
          · rintro ⟨h1, h2⟩
            exact ⟨Or.inr h1, h2⟩
          · rintro ⟨h1 | h1, h2⟩
            · subst h1
              exact absurd hf h2
            · exact ⟨h1, h2⟩
        · rw [listLoop_dir_new _ _ _ _ _ hm hs hf]
          have hd : dirNames (dirEntryOf obj rel :: listLoop pk rest (dirNameOf rel :: folders)) =
              dirNameOf rel :: dirNames (listLoop pk rest (dirNameOf rel :: folders)) := by
            unfold dirNames
            rw [List.filter_cons]
            simp [dirEntryOf]
          rw [hd]
          have ih' := ih (dirNameOf rel :: folders)
          constructor
          · rw [List.nodup_cons]
            refine ⟨?_, ih'.1⟩
            intro hc
            have := (ih'.2 (dirNameOf rel)).1 hc
            exact this.2 (List.mem_cons_self _ _)
          · intro n
            rw [List.mem_cons, ih'.2 n]
            unfold expectedDirNames
            simp only [List.filterMap_cons, hm, hs, if_true, List.mem_cons]
            by_cases hn : n = dirNameOf rel
            · subst hn
              simp [hf]
            · simp only [hn, false_or, List.mem_cons]

/-- Strings with equal character lists are equal. -/
theorem str_ext {s t : String} (h : s.data = t.data) : s = t := by
  cases s
  cases t
  exact congrArg String.mk h

/-- Trimming a verified prefix splits the string. -/
theorem goHasPre_data {s pre : String} (h : goHasPre s pre = true) :
    s.data = pre.data ++ (goTrimPre s pre).data := by
  unfold goTrimPre
  rw [if_pos h]
  unfold goHasPre at h
  obtain ⟨t, ht⟩ := List.isPrefixOf_iff_prefix.mp h
  rw [← ht]
  rw [show (String.mk ((pre.data ++ t).drop pre.data.length)).data
      = (pre.data ++ t).drop pre.data.length from rfl]
  rw [List.drop_left]

/-- A matching key is the effective prefix followed by its relative name. -/
theorem matchRel_data {pk k rel : String} (hm : matchRel pk k = some rel) :
    k.data = pk.data ++ rel.data := by
  unfold matchRel at hm
  by_cases hc : pk ≠ "" ∧ ¬ goHasPre k pk
  · rw [if_pos hc] at hm
    cases hm
  · rw [if_neg hc] at hm
    injection hm with hrel
    by_cases hpk : pk = ""
    · subst hpk
      rw [if_neg (by simp)] at hrel
      subst hrel
      rfl
    · rw [if_pos hpk] at hrel
      have hpre : goHasPre k pk = true := by
        by_contra hnp
        exact hc ⟨hpk, fun hh => hnp hh⟩
      rw [← hrel]
      exact goHasPre_data hpre

/-- Membership in the expected file entries. -/
theorem mem_expectedFiles {pk : String} {objs : List S3Object} {e : S3ObjectInfo} :
    e ∈ expectedFiles pk objs ↔
      ∃ o ∈ objs, ∃ rel, matchRel pk o.key = some rel ∧ relHasSep rel = false ∧
        e = fileEntryOf o rel := by
  unfold expectedFiles
  rw [List.mem_filterMap]
  constructor
  · rintro ⟨o, ho, hf⟩
    cases hm : matchRel pk o.key with
    | none =>
      simp only [hm] at hf
      exact Option.noConfusion hf
    | some rel =>
      simp only [hm] at hf
      by_cases hs : relHasSep rel = true
      · rw [if_pos hs] at hf
        cases hf
      · rw [if_neg hs] at hf
        injection hf with hf
        exact ⟨o, ho, rel, hm, by simpa using hs, hf.symm⟩
  · rintro ⟨o, ho, rel, hm, hs, he⟩
    refine ⟨o, ho, ?_⟩
    simp only [hm, hs, Bool.false_eq_true, if_false]
    rw [he]

/-- Per-object side condition for file-name uniqueness: a matching
separator-free relative name does not itself start with `/` (true of every
normally-shaped key). -/
def relNotSlashed (pk : String) (o : S3Object) : Bool :=
  match matchRel pk o.key with
  | none => true
  | some rel => relHasSep rel || !(goHasPre rel "/")

/-- With pairwise-distinct keys and normally-shaped relative names, the
expected file entries carry pairwise-distinct names. -/
theorem expectedFiles_names_nodup (pk : String) (objs : List S3Object)
    (hkeys : (objs.map (fun o => o.key)).Nodup)
    (hns : objs.all (relNotSlashed pk) = true) :
    ((expectedFiles pk objs).map (fun e => e.name)).Nodup := by
  have hslash : ∀ o ∈ objs, ∀ rel, matchRel pk o.key = some rel →
      relHasSep rel = false → goTrimPre rel "/" = rel := by
    intro o ho rel hm hsep
    have h1 := List.all_eq_true.mp hns o ho
    unfold relNotSlashed at h1
    simp only [hm, hsep, Bool.false_or] at h1
    have hng : ¬ goHasPre rel "/" = true := by
      intro hcc
      rw [hcc] at h1
      cases h1
    unfold goTrimPre
    rw [if_neg hng]
  clear hns
  induction objs with
  | nil => simp [expectedFiles]
  | cons obj rest ih =>
    rw [List.map_cons, List.nodup_cons] at hkeys
    obtain ⟨hknotin, hkrest⟩ := hkeys
    have hsrest : ∀ o ∈ rest, ∀ rel, matchRel pk o.key = some rel →
        relHasSep rel = false → goTrimPre rel "/" = rel :=
      fun o ho => hslash o (List.mem_cons_of_mem _ ho)
    cases hm : matchRel pk obj.key with
    | none =>
      unfold expectedFiles
      simp only [List.filterMap_cons, hm]
      exact ih hkrest hsrest
    | some rel =>
      cases hsep : relHasSep rel with
      | true =>
        unfold expectedFiles
        simp only [List.filterMap_cons, hm, hsep, if_true]
        exact ih hkrest hsrest
      | false =>
        unfold expectedFiles
        simp only [List.filterMap_cons, hm, hsep, Bool.false_eq_true, if_false]
        rw [List.map_cons, List.nodup_cons]
        refine ⟨?_, ih hkrest hsrest⟩
        intro hmem
        rw [List.mem_map] at hmem
        obtain ⟨e, he, hename⟩ := hmem
        have he2 : e ∈ expectedFiles pk rest := he
        obtain ⟨o', ho', rel', hm', hs', he'⟩ := mem_expectedFiles.mp he2
        have h1 : goTrimPre rel "/" = rel := hslash obj (List.mem_cons_self _ _) rel hm hsep
        have h1' : goTrimPre rel' "/" = rel' := hsrest o' ho' rel' hm' hs'
        have hrel : rel' = rel := by
          have : e.name = goTrimPre rel' "/" := by
            rw [he']
            rfl
          rw [h1'] at this
          have hn2 : (fileEntryOf obj rel).name = goTrimPre rel "/" := rfl
          rw [hn2, h1] at hename
          rw [this] at hename
          exact hename
        have hkey : o'.key = obj.key := by
          apply str_ext
          rw [matchRel_data hm', matchRel_data hm, hrel]
        exact hknotin (by
          rw [← hkey]
          exact List.mem_map_of_mem (fun o => o.key) ho')

/-- A successful `ListDir` call emitted exactly the loop's entries over the
store's listing. -/
theorem ListDir_ok {d : S3Driver} {st : Store} {key : String} {objs : List S3Object}
    {out : List S3ObjectInfo}
    (hl : st.listObjects = .ok objs) (h : ListDir d st key = .ok out) :
    out = listLoop (goTrimPre key "/") objs [] := by
  unfold ListDir at h
  by_cases hflag : d.featureFlags &&& featureList = 0
  · rw [if_pos hflag] at h
    cases h
  · rw [if_neg hflag] at h
    unfold bucketCheck at h
    cases hb : st.headBucket with
    | error e =>
      simp only [hb] at h
      exact Except.noConfusion h
    | ok u =>
      simp only [hb, hl] at h
      injection h with h
      exact h.symm

/-- C2: `ListDir` emits each distinct immediate child of the prefix exactly
once per call — non-matching keys contribute nothing, matching keys are
stripped, separator-containing relative names become pseudo-directories
named by their first segment and deduplicated through the seen-set, other
relative names become one real-object entry each (names pairwise distinct
when the response's keys are and no relative name starts with `/`); in
particular the `reports/` example emits exactly `a.txt` (file) and `sub`
(pseudo-directory). -/
theorem listdir_emits_each_child_once :
    (ListDir dEx stEx "reports/" = .ok
      [{ name := "a.txt", size := 10, owner := "own", modTime := 111, isPfx := false },
       { name := "sub", size := 20, owner := "", modTime := 222, isPfx := true }]) ∧
    (∀ (d : S3Driver) (st : Store) (key : String) (objs : List S3Object)
        (out : List S3ObjectInfo),
      st.listObjects = .ok objs → ListDir d st key = .ok out →
      (fileEntries out = expectedFiles (goTrimPre key "/") objs ∧
       (dirNames out).Nodup ∧
       (∀ n, n ∈ dirNames out ↔ n ∈ expectedDirNames (goTrimPre key "/") objs) ∧
       ((objs.map (fun o => o.key)).Nodup →
        objs.all (relNotSlashed (goTrimPre key "/")) = true →
        ((fileEntries out).map (fun e => e.name)).Nodup))) := by
  refine ⟨rfl, ?_⟩
  intro d st key objs out hl h
  rw [ListDir_ok hl h]
  refine ⟨listLoop_files _ _ _, (listLoop_dirs _ _ _).1, ?_, ?_⟩
  · intro n
    rw [(listLoop_dirs _ objs []).2 n]
    simp
  · intro h1 h2
    rw [listLoop_files]
    exact expectedFiles_names_nodup _ _ h1 h2

/-- Witness for C2 at the specification's example: the emitted entries have
the expected files, no duplicated pseudo-directory name, directory names
matching the expectation, and pairwise-distinct file names. -/
theorem listdir_emits_each_child_once_witness :
    fileEntries
        [{ name := "a.txt", size := 10, owner := "own", modTime := 111, isPfx := false },
         { name := "sub", size := 20, owner := "", modTime := 222, isPfx := true }] =
      expectedFiles (goTrimPre "reports/" "/") objsEx ∧
    (dirNames
        [{ name := "a.txt", size := 10, owner := "own", modTime := 111, isPfx := false },
         { name := "sub", size := 20, owner := "", modTime := 222, isPfx := true }]).Nodup ∧
    ((fileEntries
        [{ name := "a.txt", size := 10, owner := "own", modTime := 111, isPfx := false },
         { name := "sub", size := 20, owner := "", modTime := 222, isPfx := true }]).map
      (fun e => e.name)).Nodup := by
  have h := listdir_emits_each_child_once.2 dEx stEx "reports/" objsEx
    [{ name := "a.txt", size := 10, owner := "own", modTime := 111, isPfx := false },
     { name := "sub", size := 20, owner := "", modTime := 222, isPfx := true }]
    rfl listdir_emits_each_child_once.1
  exact ⟨h.1, h.2.1, h.2.2.2 (by decide) (by decide)⟩

/-! ## C7 — the canonical resource path (corrected) -/

/-- `String.mk` of the data of a string is that string. -/
theorem str_eta (s : String) : String.mk s.data = s := by
  cases s
  rfl

/-- A string starting with `"/"` is non-empty. -/
theorem slash_append_ne_empty (s : String) : "/" ++ s ≠ "" := by
  intro h
  have h2 : ('/' :: s.data) = ([] : List Char) := congrArg String.data h
  cases h2

/-- Credentials fixture for the signer. -/
def credsEx : Except CredErr CredValue :=
  .ok { accessKeyID := "ACCESSKEY", secretAccessKey := "SECRETKEY", sessionToken := "" }

/-- The date-header fixture (`Time.UTC().Format(timeFormat)`). -/
def dateEx : String := "Mon, 1 May 2023 12:00:00 +0000"

/-- Path-style request fixture with vendor headers, for the signature
reference vector. -/
def reqEx : SignRequest :=
  { method := "PUT", urlOpq := "", urlPath := "/mybucket/docs/report.txt",
    urlHost := "mybucket.s3.amazonaws.com",
    query := [],
    header := [("Content-Md5", ["md5hash"]), ("Content-Type", ["text/plain"]),
               ("X-Amz-Meta-Foo", ["bar"]), ("X-Amz-Acl", ["private"])] }

/-- Virtual-host-style request fixture: the bucket is the first label of the
host, the URL path carries only the object path. -/
def req7 : SignRequest :=
  { method := "GET", urlOpq := "", urlPath := "/obj.txt",
    urlHost := "mybucket.s3.amazonaws.com", query := [], header := [] }

/-- C7 counterexample: with path-style addressing off (bucket embedded in
the host), the signer does not use the object path alone — it prepends the
first host label: the canonical path of `/obj.txt` on host
`mybucket.s3.amazonaws.com` is `/mybucket/obj.txt`, and that path, not
`/obj.txt`, ends the canonical string. -/
theorem canonical_path_not_object_path_alone :
    canonPathOf false req7 = "/mybucket/obj.txt" ∧
    ("/mybucket/obj.txt" : String) ≠ "/obj.txt" ∧
    (sign false credsEx dateEx req7).map (fun r => r.stringToSign) =
      .ok "GET\n\n\n\nx-amz-date:Mon, 1 May 2023 12:00:00 +0000\n/mybucket/obj.txt" := by
  refine ⟨rfl, by decide, rfl⟩

/-- `splitChar` around the first separator occurrence. -/
theorem splitChar_append_first (c : Char) (r : List Char) :
    ∀ l : List Char, c ∉ l → splitChar c (l ++ c :: r) = l :: splitChar c r := by
  intro l
  induction l with
  | nil =>
    intro _
    show splitChar c (c :: r) = [] :: splitChar c r
    simp only [splitChar]
    rw [if_pos trivial]
  | cons x xs ih =>
    intro hn
    have hx : ¬ (x = c) := fun hc => hn (hc ▸ List.mem_cons_self x xs)
    have hxs : c ∉ xs := fun hc => hn (List.mem_cons_of_mem x hc)
    show splitChar c (x :: (xs ++ c :: r)) = (x :: xs) :: splitChar c r
    simp only [splitChar]
    rw [if_neg hx, ih hxs]

/-- C7 amended: the canonical resource path is — with path-style addressing,
the escaped raw uri (an empty escape canonicalizing to `/`); without it,
`"/"` + the first dot-separated label of the host (the bucket for a host of
shape `bucket.rest`) + the raw uri; and it is never empty. -/
theorem canonical_path_amended :
    (∀ req : SignRequest, canonPathOf true req =
      (if escapePath (canonUri req) false = "" then "/"
       else escapePath (canonUri req) false)) ∧
    (∀ (req : SignRequest) (bucket rest : String),
      req.urlHost = bucket ++ "." ++ rest → '.' ∉ bucket.data →
      canonPathOf false req = "/" ++ bucket ++ canonUri req) ∧
    (∀ (ps : Bool) (req : SignRequest), canonPathOf ps req ≠ "") := by
  refine ⟨?_, ?_, ?_⟩
  · intro req
    simp only [canonPathOf, not_true, if_false]
  · intro req bucket rest hhost hdot
    have hsplit : goSplit req.urlHost '.' = bucket :: goSplit rest '.' := by
      unfold goSplit
      have hdata : req.urlHost.data = bucket.data ++ '.' :: rest.data := by
        rw [hhost]
        rw [show (bucket ++ "." ++ rest).data = bucket.data ++ ['.'] ++ rest.data by simp]
        simp
      rw [hdata, splitChar_append_first '.' rest.data bucket.data hdot]
      rw [List.map_cons, str_eta]
    simp only [canonPathOf, Bool.false_eq_true, not_false_iff, if_true]
    rw [hsplit]
    simp only [List.headD_cons]
    rw [if_neg ?hne]
    case hne =>
      rw [String.append_assoc]
      exact slash_append_ne_empty _
  · intro ps req
    cases ps with
    | false =>
      simp only [canonPathOf, Bool.false_eq_true, not_false_iff, if_true]
      have hne : ("/" ++ (goSplit req.urlHost '.').headD "" ++ canonUri req) ≠ "" := by
        rw [String.append_assoc]
        exact slash_append_ne_empty _
      rw [if_neg hne]
      exact hne
    | true =>
      simp only [canonPathOf, not_true, if_false]
      by_cases hz : escapePath (canonUri req) false = ""
      · rw [if_pos hz]
        decide
      · rw [if_neg hz]
        exact hz

/-- Witness for C7 (amended): concrete instances of the three conjuncts. -/
theorem canonical_path_amended_witness :
    canonPathOf true { req7 with urlPath := "" } =
      (if escapePath (canonUri { req7 with urlPath := "" }) false = "" then "/"
       else escapePath (canonUri { req7 with urlPath := "" }) false) ∧
    canonPathOf false req7 = "/" ++ "mybucket" ++ canonUri req7 ∧
    canonPathOf true req7 ≠ "" :=
  ⟨canonical_path_amended.1 { req7 with urlPath := "" },
   canonical_path_amended.2.1 req7 "mybucket" "s3.amazonaws.com" rfl (by decide),
   canonical_path_amended.2.2 true req7⟩

/-! ## C8 — the sub-resource whitelist (corrected) -/

/-- The sub-resource whitelist exactly as the specification lists it (15
names, written in the request-parameter spelling the code queries:
access-control = `acl`, part-number = `partNumber`,
request-payment = `requestPayment`, upload-id = `uploadId`,
version-id = `versionId`). The code's entry `delete` has no counterpart in
the specification's list. -/
def specSubresources : List String :=
  ["acl", "lifecycle", "location", "logging", "notification", "partNumber",
   "policy", "requestPayment", "torrent", "uploadId", "uploads", "versionId",
   "versioning", "versions", "website"]

/-- The canonical query string as the specification describes it: iterate
`specSubresources` in order, append `key` or `key=value` for each present
name, join with `&`. -/
def specCanonQuery (query : KVList) : String :=
  joinSep "&" (specSubresources.foldl (fun acc key =>
    if (query.lookup key).isSome then acc ++ [queryPartOf query key]
    else acc) [])

/-- C8 counterexample: a request whose query holds only the `delete`
sub-resource. The code's whitelist contains `delete`, so the canonical query
string is `"delete"` and the resource gains a `?delete` suffix; under the
specification's 15-name whitelist the canonical query string would be empty
— so a parameter outside the claimed whitelist does contribute. -/
theorem canonical_query_delete_counterexample :
    canonQueryOf [("delete", [""])] = "delete" ∧
    specCanonQuery [("delete", [""])] = "" ∧
    ("delete" : String) ≠ "" ∧
    resourceOf true { req7 with query := [("delete", [""])] } = "/obj.txt?delete" := by
  refine ⟨rfl, rfl, by decide, rfl⟩

/-- C8 amended, part 1: the fold over the 16-name whitelist is the
filter-map over it — one `key` or `key=value` part per present whitelisted
name, in whitelist order. -/
theorem canonQueryParts_eq_filterMap (q : KVList) :
    canonQueryParts q = subresources.filterMap (fun key =>
      if (q.lookup key).isSome then some (queryPartOf q key) else none) := by
  unfold canonQueryParts
  suffices h : ∀ (ws : List String) (acc : List String),
      ws.foldl (fun acc key =>
        if (q.lookup key).isSome then acc ++ [queryPartOf q key] else acc) acc
      = acc ++ ws.filterMap (fun key =>
          if (q.lookup key).isSome then some (queryPartOf q key) else none) by
    rw [h subresources []]
    rfl
  intro ws
  induction ws with
  | nil =>
    intro acc
    simp
  | cons w ws ih =>
    intro acc
    rw [List.foldl_cons, List.filterMap_cons]
    by_cases hw : (q.lookup w).isSome
    · rw [if_pos hw, if_pos hw, ih]
      simp
    · rw [if_neg hw]
      simp only [hw, Bool.false_eq_true, if_false]
      rw [ih]

/-- C8 amended, part 2: queries agreeing on the 16 whitelisted names
canonicalize identically — no other query parameter contributes. -/
theorem canonQuery_local (q1 q2 : KVList)
    (hagree : ∀ k ∈ subresources, q1.lookup k = q2.lookup k) :
    canonQueryOf q1 = canonQueryOf q2 := by
  unfold canonQueryOf
  rw [canonQueryParts_eq_filterMap, canonQueryParts_eq_filterMap]
  have h : ∀ k ∈ subresources,
      (if (q1.lookup k).isSome then some (queryPartOf q1 k) else none)
        = (if (q2.lookup k).isSome then some (queryPartOf q2 k) else none) := by
    intro k hk
    have hq : q1.lookup k = q2.lookup k := hagree k hk
    have hget : queryGet q1 k = queryGet q2 k := by
      unfold queryGet
      rw [hq]
    unfold queryPartOf
    rw [hq, hget]
  rw [List.filterMap_congr h]

/-- C8 amended, part 3: the query suffix is appended exactly when the
canonical query string is non-empty. -/
theorem resource_query_suffix (ps : Bool) (req : SignRequest) :
    (canonQueryOf req.query = "" → resourceOf ps req = canonPathOf ps req) ∧
    (canonQueryOf req.query ≠ "" →
      resourceOf ps req = canonPathOf ps req ++ "?" ++ canonQueryOf req.query) := by
  constructor
  · intro h
    unfold resourceOf
    simp [h]
  · intro h
    unfold resourceOf
    simp [h]

/-- C8 amended, part 4: the escaped parts encode a space as `%20` and never
contain a literal `+`. -/
theorem query_escaping_no_plus :
    plusTo20 (queryEscape " ") = "%20" ∧ ∀ s, '+' ∉ (plusTo20 s).data := by
  refine ⟨rfl, ?_⟩
  intro s hmem
  have h : '+' ∈ s.data.flatMap (fun c => if c = '+' then ['%', '2', '0'] else [c]) := hmem
  rw [List.mem_flatMap] at h
  obtain ⟨a, _, ha⟩ := h
  by_cases hp : a = '+'
  · rw [if_pos hp] at ha
    simp at ha
  · rw [if_neg hp] at ha
    simp at ha
    exact hp ha.symm

/-- C8 amended: the canonical query string iterates exactly the code's
16-name whitelist (`acl`, `delete`, `lifecycle`, `location`, `logging`,
`notification`, `partNumber`, `policy`, `requestPayment`, `torrent`,
`uploadId`, `uploads`, `versionId`, `versioning`, `versions`, `website`) in
that fixed order, appending the URL-encoded `key` or `key=value` for each
present name (space as `%20`, never `+`), joins with `&`, and suffixes the
path with `?query` only when non-empty; parameters outside that whitelist
never contribute. -/
theorem canonical_query_whitelist_amended :
    (∀ q : KVList, canonQueryOf q = joinSep "&" (subresources.filterMap (fun key =>
      if (q.lookup key).isSome then some (queryPartOf q key) else none))) ∧
    (∀ q1 q2 : KVList, (∀ k ∈ subresources, q1.lookup k = q2.lookup k) →
      canonQueryOf q1 = canonQueryOf q2) ∧
    (∀ (ps : Bool) (req : SignRequest),
      (canonQueryOf req.query = "" → resourceOf ps req = canonPathOf ps req) ∧
      (canonQueryOf req.query ≠ "" →
        resourceOf ps req = canonPathOf ps req ++ "?" ++ canonQueryOf req.query)) ∧
    (plusTo20 (queryEscape " ") = "%20" ∧ ∀ s, '+' ∉ (plusTo20 s).data) :=
  ⟨fun q => by rw [canonQueryOf, canonQueryParts_eq_filterMap],
   canonQuery_local,
   resource_query_suffix,
   query_escaping_no_plus⟩

/-- Witness for C8 (amended): concrete instances — the locality conjunct
applied to two queries differing only outside the whitelist. -/
theorem canonical_query_whitelist_amended_witness :
    canonQueryOf [("uploads", []), ("foo", ["1"])] =
      canonQueryOf [("uploads", []), ("bar", ["2"])] ∧
    canonQueryOf [("delete", [""])] =
      joinSep "&" (subresources.filterMap (fun key =>
        if (([("delete", [""])] : KVList).lookup key).isSome
        then some (queryPartOf [("delete", [""])] key) else none)) :=
  ⟨canonical_query_whitelist_amended.2.1 [("uploads", []), ("foo", ["1"])]
      [("uploads", []), ("bar", ["2"])] (by decide),
   canonical_query_whitelist_amended.1 [("delete", [""])]⟩

/-! ## C6 — the canonical string and signature -/

/-- Well-formedness of an `http.Header` as Go maintains it: keys pairwise
distinct, in canonical form (stable under lower-casing followed by
re-canonicalization), and — as for every valid header name — free of
`':'`. -/
def WellFormedHeader (h : KVList) : Prop :=
  (h.map Prod.fst).Nodup ∧
  (∀ p ∈ h, canonicalHeaderKey (goToLower p.1) = p.1) ∧
  (∀ p ∈ h, ':' ∉ p.1.data)

instance (h : KVList) : Decidable (WellFormedHeader h) := by
  unfold WellFormedHeader
  infer_instance

/-- The rendered `name:value,...` lines of the vendor headers of `h`, in
the order of `h`. -/
def vendorLinesSpec (h : KVList) : List String :=
  h.filterMap (fun p =>
    if goHasPre (goToLower p.1) "x-amz-" then
      some (goToLower p.1 ++ ":" ++ joinSep "," p.2)
    else none)

/-- The header-name part of a rendered canonical line. -/
def lineNameOf (l : String) : String :=
  String.mk (l.data.takeWhile (fun c => c ≠ ':'))

/-- Looking up the key of a member pair in a duplicate-free association
list gives its value. -/
theorem lookup_of_mem_nodup {h : KVList} (hnd : (h.map Prod.fst).Nodup)
    {p : String × List String} (hp : p ∈ h) : h.lookup p.1 = some p.2 := by
  induction h with
  | nil => cases hp
  | cons q t ih =>
    rw [List.map_cons, List.nodup_cons] at hnd
    cases hp with
    | head =>
      show List.lookup p.1 (p :: t) = some p.2
      simp [List.lookup]
    | tail _ hmem =>
      have hne : ¬ (p.1 == q.1) = true := by
        intro hc
        exact hnd.1 (beq_iff_eq.mp hc ▸ List.mem_map_of_mem Prod.fst hmem)
      show List.lookup p.1 (q :: t) = some p.2
      cases q with
      | mk k v =>
        simp only [List.lookup]
        rw [Bool.not_eq_true] at hne
        rw [hne]
        exact ih hnd.2 hmem

/-- Erasing a key keeps every other pair. -/
theorem mem_eraseKey {h : KVList} {k : String} {p : String × List String} :
    p ∈ eraseKey h k ↔ (p ∈ h ∧ p.1 ≠ k) := by
  unfold eraseKey
  rw [List.mem_filter]
  simp

/-- Erasing a key is idempotent. -/
theorem eraseKey_eraseKey (h : KVList) (k : String) :
    eraseKey (eraseKey h k) k = eraseKey h k := by
  unfold eraseKey
  rw [List.filter_filter]
  simp

/-- Erasing preserves key distinctness. -/
theorem nodup_eraseKey {h : KVList} (hnd : (h.map Prod.fst).Nodup) (k : String) :
    ((eraseKey h k).map Prod.fst).Nodup := by
  unfold eraseKey
  exact hnd.sublist (List.Sublist.map Prod.fst (List.filter_sublist h))

/-- `headerDel` preserves well-formedness. -/
theorem wf_headerDel {h : KVList} (hwf : WellFormedHeader h) (k : String) :
    WellFormedHeader (headerDel h k) := by
  obtain ⟨h1, h2, h3⟩ := hwf
  refine ⟨nodup_eraseKey h1 _, ?_, ?_⟩
  · intro p hp
    exact h2 p (mem_eraseKey.mp hp).1
  · intro p hp
    exact h3 p (mem_eraseKey.mp hp).1

/-- `headerSet` preserves well-formedness when the canonical form of the new
key is itself well-shaped. -/
theorem wf_headerSet {h : KVList} (hwf : WellFormedHeader h) (k v : String)
    (hk1 : canonicalHeaderKey (goToLower (canonicalHeaderKey k)) = canonicalHeaderKey k)
    (hk2 : ':' ∉ (canonicalHeaderKey k).data) :
    WellFormedHeader (headerSet h k v) := by
  obtain ⟨h1, h2, h3⟩ := hwf
  refine ⟨?_, ?_, ?_⟩
  · rw [show (headerSet h k v).map Prod.fst
        = canonicalHeaderKey k :: (eraseKey h (canonicalHeaderKey k)).map Prod.fst from rfl]
    rw [List.nodup_cons]
    refine ⟨?_, nodup_eraseKey h1 _⟩
    intro hc
    rw [List.mem_map] at hc
    obtain ⟨p, hp, hpk⟩ := hc
    exact (mem_eraseKey.mp hp).2 hpk
  · intro p hp
    cases hp with
    | head => exact hk1
    | tail _ hmem => exact h2 p (mem_eraseKey.mp hmem).1
  · intro p hp
    cases hp with
    | head => exact hk2
    | tail _ hmem => exact h3 p (mem_eraseKey.mp hmem).1

/-- Lower-casing never produces a `':'` from another character. -/
theorem lowerChar_eq_colon {c : Char} (h : lowerChar c = ':') : c = ':' := by
  unfold lowerChar at h
  by_cases hc : 65 ≤ c.toNat ∧ c.toNat ≤ 90
  · rw [if_pos hc] at h
    have h1 : (Char.ofNat (c.toNat + 32)).toNat = c.toNat + 32 := by
      unfold Char.ofNat
      rw [dif_pos ?_]
      · rfl
      · left
        omega
    rw [h] at h1
    rw [show (':' : Char).toNat = 58 from rfl] at h1
    omega
  · rw [if_neg hc] at h
    exact h

/-- Lower-casing a colon-free header name keeps it colon-free. -/
theorem goToLower_no_colon {s : String} (h : ':' ∉ s.data) :
    ':' ∉ (goToLower s).data := by
  intro hc
  rw [show (goToLower s).data = s.data.map lowerChar from rfl, List.mem_map] at hc
  obtain ⟨c, hmem, hl⟩ := hc
  exact h (lowerChar_eq_colon hl ▸ hmem)

/-- `takeWhile` up to the first `':'` of a rendered line. -/
theorem takeWhile_until_colon (r : List Char) :
    ∀ l : List Char, (∀ c ∈ l, c ≠ ':') →
      (l ++ ':' :: r).takeWhile (fun c => c ≠ ':') = l := by
  intro l
  induction l with
  | nil =>
    intro _
    rw [List.nil_append, List.takeWhile_cons]
    rw [if_neg (by decide)]
  | cons x xs ih =>
    intro hfree
    rw [List.cons_append, List.takeWhile_cons]
    have hx : x ≠ ':' := hfree x (List.mem_cons_self x xs)
    rw [if_pos (decide_eq_true hx)]
    rw [ih (fun c hc => hfree c (List.mem_cons_of_mem x hc))]

/-- The name of a rendered header line is the header name. -/
theorem lineNameOf_render (h : KVList) (k : String) (hk : ':' ∉ k.data) :
    lineNameOf (renderHeaderLine h k) = k := by
  unfold lineNameOf renderHeaderLine
  rw [show (k ++ ":" ++ joinSep "," (headerValues h (canonicalHeaderKey k))).data
      = k.data ++ ':' :: (joinSep "," (headerValues h (canonicalHeaderKey k))).data by simp]
  rw [takeWhile_until_colon _ k.data (fun c hc hcc => hk (hcc ▸ hc))]

instance : IsTotal String strDataLe :=
  ⟨fun a b => le_total a.data b.data⟩

instance : IsTrans String strDataLe :=
  ⟨fun _ _ _ h1 h2 => le_trans h1 h2⟩

/-- `sortStrings` sorts. -/
theorem sortStrings_sorted (l : List String) : List.Sorted strDataLe (sortStrings l) :=
  List.sorted_insertionSort strDataLe l

/-- `sortStrings` permutes. -/
theorem sortStrings_perm (l : List String) : (sortStrings l).Perm l :=
  List.perm_insertionSort strDataLe l

/-- Reading back the key just set. -/
theorem headerGet_headerSet (h : KVList) (k v : String) :
    headerGet (headerSet h k v) k = v := by
  unfold headerGet headerSet
  rw [show ((canonicalHeaderKey k, [v]) :: eraseKey h (canonicalHeaderKey k)).lookup
      (canonicalHeaderKey k) = some [v] by simp [List.lookup]]

/-- Rendering a well-formed header's lower-cased vendor names, in header
order, gives exactly the spec's lines. -/
theorem map_render_eq_vendorLines (h : KVList) (hwf : WellFormedHeader h) :
    ((h.map (fun p => goToLower p.1)).filter (fun k => goHasPre k "x-amz-")).map
      (renderHeaderLine h) = vendorLinesSpec h := by
  have hrender : ∀ p ∈ h, renderHeaderLine h (goToLower p.1)
      = goToLower p.1 ++ ":" ++ joinSep "," p.2 := by
    intro p hp
    unfold renderHeaderLine
    rw [hwf.2.1 p hp]
    unfold headerValues
    rw [lookup_of_mem_nodup hwf.1 hp]
    rfl
  suffices haux : ∀ l : KVList, (∀ p ∈ l, renderHeaderLine h (goToLower p.1)
      = goToLower p.1 ++ ":" ++ joinSep "," p.2) →
      ((l.map (fun p => goToLower p.1)).filter (fun k => goHasPre k "x-amz-")).map
        (renderHeaderLine h) = vendorLinesSpec l by
    exact haux h hrender
  intro l
  induction l with
  | nil =>
    intro _
    rfl
  | cons p t ih =>
    intro hl
    rw [List.map_cons, List.filter_cons]
    unfold vendorLinesSpec
    rw [List.filterMap_cons]
    by_cases hv : goHasPre (goToLower p.1) "x-amz-" = true
    · rw [if_pos hv, if_pos hv, List.map_cons]
      rw [hl p (List.mem_cons_self p t)]
      rw [ih (fun q hq => hl q (List.mem_cons_of_mem p hq))]
      rfl
    · rw [if_neg hv, if_neg hv]
      rw [ih (fun q hq => hl q (List.mem_cons_of_mem p hq))]
      rfl

/-- A non-vendor head contributes no vendor line. -/
theorem vendorLinesSpec_cons_skip (p : String × List String) (t : KVList)
    (h : goHasPre (goToLower p.1) "x-amz-" = false) :
    vendorLinesSpec (p :: t) = vendorLinesSpec t := by
  unfold vendorLinesSpec
  rw [List.filterMap_cons]
  simp only [h, Bool.false_eq_true, if_false]

/-- Setting `Authorization` does not change the vendor lines. -/
theorem vendorLinesSpec_set_authorization (h : KVList) (v : String) :
    vendorLinesSpec (headerSet h "Authorization" v)
      = vendorLinesSpec (eraseKey h "Authorization") := by
  have hna : goHasPre (goToLower "Authorization") "x-amz-" = false := by decide
  show vendorLinesSpec (("Authorization", [v]) :: eraseKey h "Authorization") = _
  exact vendorLinesSpec_cons_skip ("Authorization", [v]) _ hna

/-- The mutated header the signer canonicalizes: `x-amz-date` set, the
session token header set when present, `Authorization` cleared. -/
def mutatedHeader (cv : CredValue) (date : String) (req : SignRequest) : KVList :=
  headerDel
    (if cv.sessionToken ≠ "" then
      headerSet (headerSet req.header "x-amz-date" date) "x-amz-security-token" cv.sessionToken
    else headerSet req.header "x-amz-date" date) "Authorization"

/-- The canonical header lines of the signer. -/
def signLines (cv : CredValue) (date : String) (req : SignRequest) : List String :=
  (vendorNamesOf (mutatedHeader cv date req)).map (renderHeaderLine (mutatedHeader cv date req))

/-- The signer's canonical string. -/
def signStringToSign (ps : Bool) (cv : CredValue) (date : String) (req : SignRequest) : String :=
  joinSep "\n" ([req.method, headerGet req.header "Content-MD5",
    headerGet req.header "Content-Type", ""] ++ signLines cv date req ++ [resourceOf ps req])

/-- The signer's signature value. -/
def signSignature (ps : Bool) (cv : CredValue) (date : String) (req : SignRequest) : String :=
  base64Encode (hmacSha1 (strBytes cv.secretAccessKey)
    (strBytes (signStringToSign ps cv date req)))

/-- `sign` with valid credentials, written with its pieces named. -/
theorem sign_ok (ps : Bool) (cv : CredValue) (date : String) (req : SignRequest) :
    sign ps (.ok cv) date req = .ok
      { header := headerSet (mutatedHeader cv date req) "Authorization"
          ("AWS " ++ cv.accessKeyID ++ ":" ++ signSignature ps cv date req),
        stringToSign := signStringToSign ps cv date req,
        signature := signSignature ps cv date req } := rfl

/-- The mutated header of a well-formed header is well-formed. -/
theorem wf_mutatedHeader {req : SignRequest} (hwf : WellFormedHeader req.header)
    (cv : CredValue) (date : String) : WellFormedHeader (mutatedHeader cv date req) := by
  unfold mutatedHeader
  apply wf_headerDel
  by_cases ht : cv.sessionToken ≠ ""
  · rw [if_pos ht]
    exact wf_headerSet (wf_headerSet hwf _ _ (by decide) (by decide)) _ _
      (by decide) (by decide)
  · rw [if_neg ht]
    exact wf_headerSet hwf _ _ (by decide) (by decide)

/-- C6: the signer is deterministic and order-sensitive — for any request
with a well-formed header map (and concretely at the reference fixture), the
canonical string is the newline-join of the method, the `Content-MD5` value
(`""` when absent), the `Content-Type` value (`""` when absent), a blank
line, the rendered `x-amz-*` header lines (exactly one per vendor header of
the mutated request, sorted by lower-cased header name) and the canonical
resource; the signature is the base64 of the HMAC-SHA1 of that string under
the secret key, and the `Authorization` header is `"AWS "` + access key +
`":"` + signature. -/
theorem signer_canonical_string :
    ((sign true credsEx dateEx reqEx).map
        (fun r => (r.stringToSign, r.signature, headerGet r.header "Authorization")) =
      .ok ("PUT\nmd5hash\ntext/plain\n\nx-amz-acl:private\nx-amz-date:Mon, 1 May 2023 12:00:00 +0000\nx-amz-meta-foo:bar\n/mybucket/docs/report.txt",
           "3e/c/WqQOGv/Rzulj/AuWS0Lqvc=",
           "AWS ACCESSKEY:3e/c/WqQOGv/Rzulj/AuWS0Lqvc=")) ∧
    (∀ (ps : Bool) (cv : CredValue) (date : String) (req : SignRequest),
      WellFormedHeader req.header →
      ∃ (r : SignResult) (lines : List String),
        sign ps (.ok cv) date req = .ok r ∧
        r.stringToSign = joinSep "\n" ([req.method, headerGet req.header "Content-MD5",
          headerGet req.header "Content-Type", ""] ++ lines ++ [resourceOf ps req]) ∧
        lines.Perm (vendorLinesSpec r.header) ∧
        List.Sorted strDataLe (lines.map lineNameOf) ∧
        r.signature = base64Encode (hmacSha1 (strBytes cv.secretAccessKey)
          (strBytes r.stringToSign)) ∧
        headerGet r.header "Authorization" = "AWS " ++ cv.accessKeyID ++ ":" ++ r.signature) := by
  constructor
  · rfl
  · intro ps cv date req hwf
    have hwfM := wf_mutatedHeader hwf cv date
    refine ⟨_, signLines cv date req, sign_ok ps cv date req, rfl, ?_, ?_, rfl, ?_⟩
    · -- permutation with the vendor lines of the final header
      have hM : eraseKey (mutatedHeader cv date req) "Authorization"
          = mutatedHeader cv date req := by
        show eraseKey (eraseKey _ "Authorization") "Authorization"
          = eraseKey _ "Authorization"
        exact eraseKey_eraseKey _ _
      have h1 : vendorLinesSpec (headerSet (mutatedHeader cv date req) "Authorization"
            ("AWS " ++ cv.accessKeyID ++ ":" ++ signSignature ps cv date req))
          = vendorLinesSpec (mutatedHeader cv date req) := by
        rw [vendorLinesSpec_set_authorization, hM]
      show (signLines cv date req).Perm
        (vendorLinesSpec (headerSet (mutatedHeader cv date req) "Authorization"
          ("AWS " ++ cv.accessKeyID ++ ":" ++ signSignature ps cv date req)))
      rw [h1]
      unfold signLines vendorNamesOf
      rw [← map_render_eq_vendorLines (mutatedHeader cv date req) hwfM]
      exact List.Perm.map _ (sortStrings_perm _)
    · -- sortedness of the line names
      have hnames : (signLines cv date req).map lineNameOf
          = vendorNamesOf (mutatedHeader cv date req) := by
        unfold signLines
        rw [List.map_map]
        have hid : ∀ k ∈ vendorNamesOf (mutatedHeader cv date req),
            (lineNameOf ∘ renderHeaderLine (mutatedHeader cv date req)) k = id k := by
          intro k hk
          have hkraw : k ∈ (mutatedHeader cv date req).map (fun p => goToLower p.1) :=
            List.mem_of_mem_filter ((sortStrings_perm _).subset hk)
          rw [List.mem_map] at hkraw
          obtain ⟨p, hp, hkp⟩ := hkraw
          have hcolon : ':' ∉ k.data := by
            rw [← hkp]
            exact goToLower_no_colon (hwfM.2.2 p hp)
          exact lineNameOf_render _ k hcolon
        rw [List.map_congr_left hid, List.map_id]
      rw [hnames]
      exact sortStrings_sorted _
    · show headerGet (headerSet (mutatedHeader cv date req) "Authorization"
          ("AWS " ++ cv.accessKeyID ++ ":" ++ signSignature ps cv date req)) "Authorization"
        = "AWS " ++ cv.accessKeyID ++ ":" ++ signSignature ps cv date req
      exact headerGet_headerSet _ _ _

/-- Witness for C6 at the reference fixture: the structural conjunct,
applied to the concrete request, pins the concrete `Authorization` value. -/
theorem signer_canonical_string_witness :
    (sign true credsEx dateEx reqEx).map (fun r => headerGet r.header "Authorization")
      = .ok "AWS ACCESSKEY:3e/c/WqQOGv/Rzulj/AuWS0Lqvc=" := by
  obtain ⟨r, lines, h1, _h2, _h3, _h4, _h5, h6⟩ := signer_canonical_string.2 true
    { accessKeyID := "ACCESSKEY", secretAccessKey := "SECRETKEY", sessionToken := "" }
    dateEx reqEx (by decide)
  have hr : sign true credsEx dateEx reqEx = .ok r := h1
  rw [hr]
  rw [show (Except.ok r).map
      (fun r : SignResult => headerGet r.header "Authorization")
      = .ok (headerGet r.header "Authorization") from rfl]
  rw [h6]
  have h0 := (sign_ok true
    { accessKeyID := "ACCESSKEY", secretAccessKey := "SECRETKEY", sessionToken := "" }
    dateEx reqEx).symm.trans h1
  injection h0 with h0
  rw [← h0]
  rfl

end F3
